import Mathlib

/-!
Shallow embedding of the tsgql schema generator (`src/codegen.rs`) and proofs
about its type-resolution and schema-synthesis engine.

The embedding mirrors the Rust source function by function:
`CodeGenCtx::parse`, `parse_statement`, `parse_typed_fields`, `parse_field`,
`parse_type`, `parse_type_ref`, `parse_arg_member`, `parse_arg_type_literal`,
`parse_type_literal`, `unwrap_union`, `is_nullable`, `is_nullable_union`,
`compute_new_name`, `upper_camel_case`, `parse_keyword_type` and
`generate_schema`.  Rust `Result::Err` values become `Failure.err`, and
`todo!()` / `.unwrap()` panics become `Failure.panic`, so that returning an
error to the caller and crashing stay distinguishable.  The mutual recursion
is made total with a fuel parameter (`Failure.fuel` marks exhaustion); every
theorem about a successful or failing run holds for the fuel it names.
-/

namespace Tsgql

/-- GraphQL kind tags from the caller-supplied manifest (`GraphQLKind`). -/
inductive GraphQLKind where
  | object
  | input
  | enum
deriving Repr, DecidableEq

/-- GraphQL type shapes (`apollo_encoder::Type_`). -/
inductive Type_ where
  | namedType (name : String)
  | list (ty : Type_)
  | nonNull (ty : Type_)
deriving Repr, DecidableEq

/-- A GraphQL argument (`apollo_encoder::InputValue`). -/
structure InputValue where
  name : String
  type_ : Type_
deriving Repr, DecidableEq

/-- A GraphQL object field (`apollo_encoder::Field`): `Field::new` starts with
no arguments and `field.arg` appends them in order. -/
structure Field where
  name : String
  type_ : Type_
  args : List InputValue
deriving Repr, DecidableEq

/-- A GraphQL input field (`apollo_encoder::InputField`). -/
structure InputField where
  name : String
  type_ : Type_
deriving Repr, DecidableEq

/-- A GraphQL object definition (`apollo_encoder::ObjectDef`). -/
structure ObjectDef where
  name : String
  fields : List Field
deriving Repr, DecidableEq

/-- A GraphQL input object definition (`apollo_encoder::InputObjectDef`). -/
structure InputObjectDef where
  name : String
  fields : List InputField
deriving Repr, DecidableEq

/-- One definition pushed into the schema accumulator. -/
inductive SchemaDef where
  | objectD (d : ObjectDef)
  | inputD (d : InputObjectDef)
deriving Repr, DecidableEq

/-- The keyword kinds of `swc_ecmascript::ast::TsKeywordTypeKind`. -/
inductive TsKeywordKind where
  | anyKw | unknownKw | numberKw | objectKw | booleanKw | bigIntKw
  | stringKw | symbolKw | voidKw | undefinedKw | nullKw | neverKw | intrinsicKw
deriving Repr, DecidableEq

/-- `swc_ecmascript::ast::TsEntityName`: a plain identifier or a qualified
name (the latter hits a `todo!()` in `parse_type_ref`). -/
inductive TsEntityName where
  | ident (sym : String)
  | qualified
deriving Repr, DecidableEq

/-- The key of a property signature: `Expr::Ident` or any other expression. -/
inductive PropKey where
  | ident (sym : String)
  | otherKey
deriving Repr, DecidableEq

mutual

/-- The subset of `swc_ecmascript::ast::TsType` the generator inspects.
`otherType` stands for every remaining variant (they all reach the
catch-all `todo!()` arms). `intersectionType` is kept separate because the
source pattern `TsUnionOrIntersectionType::TsUnionType` distinguishes it. -/
inductive TsType where
  | keyword (kind : TsKeywordKind)
  | array (elemType : TsType)
  | typeRef (typeName : TsEntityName) (typeParams : Option (List TsType))
  | fnType (params : List TsFnParam) (retAnn : TsType)
  | unionType (types : List TsType)
  | intersectionType (types : List TsType)
  | typeLit (members : List TsTypeElement)
  | otherType

/-- `swc_ecmascript::ast::TsFnParam`: an identifier binding with an optional
type annotation, or any other pattern. -/
inductive TsFnParam where
  | identP (typeAnn : Option TsType)
  | otherParam

/-- `swc_ecmascript::ast::TsTypeElement`: a property signature (key,
`optional` flag, optional type annotation) or any other member. -/
inductive TsTypeElement where
  | propSig (key : PropKey) (optional : Bool) (typeAnn : Option TsType)
  | otherElement

end

/-- A top-level statement: a `type` alias declaration or anything else
(which hits `todo!()` in `parse_statement`). -/
inductive Stmt where
  | declTypeAlias (id : String) (typeAnn : TsType)
  | otherStmt

/-- An item of the parsed module: a statement or a module declaration
(imports/exports, skipped by `CodeGenCtx::parse`). -/
inductive ModuleItem where
  | stmt (s : Stmt)
  | moduleDecl

/-- A parsed module (`swc_ecmascript::ast::Module`). -/
structure Module where
  body : List ModuleItem

/-- `FieldKind` from the source: the kind of field being synthesized. -/
inductive FieldKind where
  | inputK
  | objectK
deriving Repr, DecidableEq

/-- `ParsedField` from the source. -/
inductive ParsedField where
  | inputF (f : InputField)
  | objectF (f : Field)
deriving Repr, DecidableEq

/-- `ComputeNameKind` from the source: how to name a synthesized type. -/
inductive ComputeNameKind where
  | inputName (paramName : String) (memberCount : Nat)
  | outputName
deriving Repr, DecidableEq

/-- How a run of the generator can fail: `err` models an `anyhow::Error`
returned as `Result::Err`; `panic` models `todo!()` and `.unwrap()` panics;
`fuel` marks recursion-fuel exhaustion of the embedding. -/
inductive Failure where
  | err (msg : String)
  | panic (msg : String)
  | fuel
deriving Repr, DecidableEq

/-- The mutable generator state (`CodeGenCtx`): the schema accumulator, the
manifest (association list keyed by declared name), and the two positional
context flags. -/
structure CodeGenCtx where
  schema : List SchemaDef
  manifest : List (String × GraphQLKind)
  parsing_inputs : Bool
  parsing_output : Bool
deriving Repr, DecidableEq

/-- `CodeGenCtx::new`. -/
def CodeGenCtx.new (manifest : List (String × GraphQLKind)) : CodeGenCtx :=
  { schema := [], manifest := manifest, parsing_inputs := false, parsing_output := false }

/-- `HashMap::get` on the manifest (keys are unique). -/
def manifestGet (manifest : List (String × GraphQLKind)) (name : String) :
    Option GraphQLKind :=
  match manifest with
  | [] => none
  | (k, v) :: rest => if k = name then some v else manifestGet rest name

/-- `char::to_ascii_uppercase`. -/
def to_ascii_uppercase (c : Char) : Char :=
  if 97 ≤ c.toNat ∧ c.toNat ≤ 122 then Char.ofNat (c.toNat - 32) else c

/-- The `upper_camel_case` free function: uppercase the first character
(ASCII), leave the rest unchanged. -/
def upper_camel_case (s : String) : String :=
  match s.data with
  | [] => ⟨[]⟩
  | c :: rest => ⟨to_ascii_uppercase c :: rest⟩

/-- `CodeGenCtx::compute_new_name`. -/
def compute_new_name (kind : ComputeNameKind) (field_name : String) : String :=
  match kind with
  | .outputName => upper_camel_case field_name ++ "Output"
  | .inputName param_name member_count =>
    if member_count = 1 then
      upper_camel_case field_name ++ "Input"
    else
      upper_camel_case field_name ++ "Input" ++ upper_camel_case param_name

/-- `CodeGenCtx::parse_keyword_type`: `number`/`string`/`boolean` map to the
three scalars, every other keyword hits `todo!()`. -/
def parse_keyword_type (kind : TsKeywordKind) : Except Failure Type_ :=
  match kind with
  | .numberKw => .ok (.namedType "Int")
  | .stringKw => .ok (.namedType "String")
  | .booleanKw => .ok (.namedType "Boolean")
  | _ => .error (.panic "Unsupported keyword type")

mutual

/-- `CodeGenCtx::is_nullable`: unions delegate to `is_nullable_union`, the
`null`/`undefined` keywords are nullable, everything else is not. -/
def is_nullable (ty : TsType) : Bool :=
  match ty with
  | .unionType types => is_nullable_list types
  | .keyword kind => kind = .nullKw || kind = .undefinedKw
  | _ => false

/-- The `types.iter().any(is_nullable)` loop shared by `is_nullable` and
`is_nullable_union`. -/
def is_nullable_list (types : List TsType) : Bool :=
  match types with
  | [] => false
  | t :: rest => is_nullable t || is_nullable_list rest

end

/-- `CodeGenCtx::is_nullable_union`: true when the type is a union with at
least one nullable member. -/
def is_nullable_union (ty : TsType) : Bool :=
  match ty with
  | .unionType types => is_nullable_list types
  | _ => false

/-- `CodeGenCtx::unwrap_union` (codegen.rs): return the first non-nullable
member of the union, erroring only when every member is nullable. -/
def unwrap_union (types : List TsType) : Except Failure TsType :=
  match types.find? (fun t => !is_nullable t) with
  | none => .error (.err "No non-nullable type found in union")
  | some t => .ok t

/-- `ParsedField::new`. -/
def ParsedField.new (kind : FieldKind) (name : String) (type_ : Type_) : ParsedField :=
  match kind with
  | .inputK => .inputF ⟨name, type_⟩
  | .objectK => .objectF ⟨name, type_, []⟩

/-- `ParsedField::with_args`: attach arguments; input fields cannot carry
arguments, so the result is `none` for the input kind. -/
def ParsedField.with_args (kind : FieldKind) (name : String) (type_ : Type_)
    (args : List InputValue) : Option ParsedField :=
  match ParsedField.new kind name type_ with
  | .objectF f => some (.objectF { f with args := f.args ++ args })
  | .inputF _ => none

/-- The `f.input().unwrap()` mapping over parsed fields: `none` models the
unwrap panic when an object field shows up. -/
def collectInputs (fields : List ParsedField) : Option (List InputField) :=
  match fields with
  | [] => some []
  | .inputF f :: rest =>
    match collectInputs rest with
    | none => none
    | some fs => some (f :: fs)
  | .objectF _ :: _ => none

/-- The `f.object().unwrap()` mapping over parsed fields. -/
def collectObjects (fields : List ParsedField) : Option (List Field) :=
  match fields with
  | [] => some []
  | .objectF f :: rest =>
    match collectObjects rest with
    | none => none
    | some fs => some (f :: fs)
  | .inputF _ :: _ => none

/-- The shared finalization of `parse_type`: `if !optional` wrap the resolved
type in `NonNull`. -/
def nonNullWrap (optional : Bool) (ty : Type_) : Type_ :=
  if !optional then .nonNull ty else ty

/-- Result type of the stateful generator functions. -/
abbrev PRes (α : Type) := Except Failure (α × CodeGenCtx)

mutual

/-- `CodeGenCtx::parse`: iterate the module body; statements are parsed,
module declarations are skipped. -/
def parse_items (fuel : Nat) (items : List ModuleItem) (ctx : CodeGenCtx) : PRes Unit :=
  match fuel with
  | 0 => .error .fuel
  | fuel + 1 =>
    match items with
    | [] => .ok ((), ctx)
    | .moduleDecl :: rest => parse_items fuel rest ctx
    | .stmt s :: rest =>
      match parse_statement fuel s ctx with
      | .error e => .error e
      | .ok (_, ctx1) => parse_items fuel rest ctx1

/-- `CodeGenCtx::parse_statement` (codegen.rs): manifest-Input aliases build
an input definition, every other manifest kind builds an object definition,
and names absent from the manifest are skipped. -/
def parse_statement (fuel : Nat) (stmt : Stmt) (ctx : CodeGenCtx) : PRes Unit :=
  match fuel with
  | 0 => .error .fuel
  | fuel + 1 =>
    match stmt with
    | .otherStmt => .error (.panic "parse_statement: unsupported statement")
    | .declTypeAlias ident type_ann =>
      match manifestGet ctx.manifest ident with
      | some .input =>
        match parse_typed_fields fuel .inputK type_ann ctx with
        | .error e => .error e
        | .ok (fields, ctx1) =>
          match collectInputs fields with
          | none => .error (.panic "ParsedField input unwrap")
          | some fs =>
            .ok ((), { ctx1 with schema := ctx1.schema ++ [.inputD ⟨ident, fs⟩] })
      | some _ =>
        match parse_typed_fields fuel .objectK type_ann ctx with
        | .error e => .error e
        | .ok (fields, ctx1) =>
          match collectObjects fields with
          | none => .error (.panic "ParsedField object unwrap")
          | some fs =>
            .ok ((), { ctx1 with schema := ctx1.schema ++ [.objectD ⟨ident, fs⟩] })
      | none => .ok ((), ctx)

/-- `CodeGenCtx::parse_typed_fields`: only object type literals are
implemented; anything else hits `todo!()`. -/
def parse_typed_fields (fuel : Nat) (field_kind : FieldKind) (type_ann : TsType)
    (ctx : CodeGenCtx) : PRes (List ParsedField) :=
  match fuel with
  | 0 => .error .fuel
  | fuel + 1 =>
    match type_ann with
    | .typeLit lit => parse_typed_fields_loop fuel field_kind lit ctx
    | _ => .error (.panic "Not implemented parsing in this context")

/-- The member loop of `parse_typed_fields`: property signatures become
fields, any other member kind is an invalid property type. -/
def parse_typed_fields_loop (fuel : Nat) (field_kind : FieldKind)
    (members : List TsTypeElement) (ctx : CodeGenCtx) : PRes (List ParsedField) :=
  match fuel with
  | 0 => .error .fuel
  | fuel + 1 =>
    match members with
    | [] => .ok ([], ctx)
    | .propSig key opt ann :: rest =>
      match parse_field fuel field_kind key opt ann ctx with
      | .error e => .error e
      | .ok (f, ctx1) =>
        match parse_typed_fields_loop fuel field_kind rest ctx1 with
        | .error e => .error e
        | .ok (fs, ctx2) => .ok (f :: fs, ctx2)
    | .otherElement :: _ => .error (.err "Invalid property type")

/-- `CodeGenCtx::parse_field`: resolve one property into a field, attaching
returned arguments (only object fields may carry them). -/
def parse_field (fuel : Nat) (kind : FieldKind) (key : PropKey) (optional : Bool)
    (type_ann : Option TsType) (ctx : CodeGenCtx) : PRes ParsedField :=
  match fuel with
  | 0 => .error .fuel
  | fuel + 1 =>
    match key with
    | .otherKey => .error (.err "Invalid property signature type")
    | .ident key_sym =>
      match type_ann with
      | none => .error (.panic "prop_sig type_ann unwrap")
      | some ann =>
        match parse_type fuel key_sym ann optional ctx with
        | .error e => .error e
        | .ok ((ty, none), ctx1) => .ok (ParsedField.new kind key_sym ty, ctx1)
        | .ok ((ty, some args), ctx1) =>
          match ParsedField.with_args kind key_sym ty args with
          | none => .error (.err "Only ObjectDefs can contain input fields with args")
          | some f => .ok (f, ctx1)

/-- `CodeGenCtx::parse_type`: the recursive type resolver.  The `keyword`,
`array` and `typeRef` arms fall through to the shared `nonNullWrap`
finalization; the function and union arms return early. -/
def parse_type (fuel : Nat) (field_name : String) (type_ann : TsType) (optional : Bool)
    (ctx : CodeGenCtx) : PRes (Type_ × Option (List InputValue)) :=
  match fuel with
  | 0 => .error .fuel
  | fuel + 1 =>
    match type_ann with
    | .keyword kind =>
      match parse_keyword_type kind with
      | .error e => .error e
      | .ok ty => .ok ((nonNullWrap optional ty, none), ctx)
    | .array elem_type =>
      match ctx.parsing_output, elem_type with
      | true, .typeLit lit =>
        let name := compute_new_name .outputName field_name
        match parse_type_literal fuel .objectK name (.typeLit lit) ctx with
        | .error e => .error e
        | .ok (_, ctx1) =>
          .ok ((nonNullWrap optional (.list (.namedType name)), none), ctx1)
      | _, _ =>
        match parse_type fuel field_name elem_type true ctx with
        | .error e => .error e
        | .ok ((elem_ty, _), ctx1) =>
          .ok ((nonNullWrap optional (.list elem_ty), none), ctx1)
    | .typeRef type_name type_params =>
      match parse_type_ref fuel field_name type_name type_params ctx with
      | .error e => .error e
      | .ok ((ty, args), ctx1) => .ok ((nonNullWrap optional ty, args), ctx1)
    | .fnType params ret_ann =>
      if params.length ≠ 1 then
        .error (.err "Expected only one parameter for field arg")
      else
        match params with
        | [.identP (some (.typeLit lit))] =>
          let member_count := lit.length
          let ctx1 := { ctx with parsing_inputs := true }
          match parse_arg_members fuel field_name lit member_count ctx1 with
          | .error e => .error e
          | .ok (args, ctx2) =>
            let ctx3 := { ctx2 with parsing_inputs := false, parsing_output := true }
            match parse_type fuel field_name ret_ann true ctx3 with
            | .error e => .error e
            | .ok ((ret_ty, _), ctx4) =>
              .ok ((ret_ty, some args), { ctx4 with parsing_output := false })
        | _ => .error (.err "Type of Field args can only be objects")
    | .unionType uni =>
      match unwrap_union uni with
      | .error e => .error e
      | .ok typ => parse_type fuel field_name typ true ctx
    | _ => .error (.panic "parse_type: unsupported type")

/-- `CodeGenCtx::parse_type_ref`: manifest lookup with positional checks for
plain references, and the Promise-unwrapping logic for `Promise<T>`. -/
def parse_type_ref (fuel : Nat) (field_name : String) (type_name : TsEntityName)
    (type_params : Option (List TsType)) (ctx : CodeGenCtx) :
    PRes (Type_ × Option (List InputValue)) :=
  match fuel with
  | 0 => .error .fuel
  | fuel + 1 =>
    match type_name with
    | .qualified => .error (.panic "parse_type_ref: qualified name")
    | .ident sym =>
      if sym ≠ "Promise" then
        match manifestGet ctx.manifest sym with
        | some .object =>
          if ctx.parsing_inputs then
            .error (.err ("Field args can only be Inputs (check: " ++ sym ++ ")"))
          else .ok ((.namedType sym, none), ctx)
        | some .input =>
          if !ctx.parsing_inputs then
            .error (.err ("Field type can\x27t be an Input (check: " ++ sym ++ ")"))
          else .ok ((.namedType sym, none), ctx)
        | some .enum => .ok ((.namedType sym, none), ctx)
        | none => .error (.err ("Undefined type: " ++ sym))
      else
        match type_params with
        | none => .error (.err "Missing type parameter for Promise")
        | some params =>
          match params with
          | [typ] =>
            match typ, is_nullable_union typ with
            | .unionType u, true =>
              match unwrap_union u with
              | .error e => .error e
              | .ok non_null =>
                match non_null with
                | .typeLit lit =>
                  let name := compute_new_name .outputName field_name
                  match parse_type_literal fuel .objectK name (.typeLit lit) ctx with
                  | .error e => .error e
                  | .ok (_, ctx1) => .ok ((.namedType name, none), ctx1)
                | _ => parse_type fuel field_name non_null true ctx
            | .typeLit lit, _ =>
              let name := compute_new_name .outputName field_name
              match parse_type_literal fuel .objectK name (.typeLit lit) ctx with
              | .error e => .error e
              | .ok (_, ctx1) => .ok ((.nonNull (.namedType name), none), ctx1)
            | _, _ => parse_type fuel "" typ false ctx
          | _ => .error (.err "Invalid amount of type parameters for Promise")

/-- The `lit.members.iter().map(parse_arg_member).collect()` loop of the
function-type arm. -/
def parse_arg_members (fuel : Nat) (field_name : String) (members : List TsTypeElement)
    (member_count : Nat) (ctx : CodeGenCtx) : PRes (List InputValue) :=
  match fuel with
  | 0 => .error .fuel
  | fuel + 1 =>
    match members with
    | [] => .ok ([], ctx)
    | m :: rest =>
      match parse_arg_member fuel field_name m member_count ctx with
      | .error e => .error e
      | .ok (iv, ctx1) =>
        match parse_arg_members fuel field_name rest member_count ctx1 with
        | .error e => .error e
        | .ok (ivs, ctx2) => .ok (iv :: ivs, ctx2)

/-- `CodeGenCtx::parse_arg_member`: build one argument from a member of the
function parameter object, synthesizing input types for inline literals. -/
def parse_arg_member (fuel : Nat) (field_name : String) (member : TsTypeElement)
    (member_count : Nat) (ctx : CodeGenCtx) : PRes InputValue :=
  match fuel with
  | 0 => .error .fuel
  | fuel + 1 =>
    match member with
    | .otherElement => .error (.err "Field args input can only contain properties")
    | .propSig key optional type_ann =>
      match key with
      | .otherKey => .error (.panic "parse_arg_member: non-identifier key")
      | .ident name =>
        match type_ann with
        | none => .error (.err "Missing property")
        | some ann =>
          match ann with
          | .typeLit lit =>
            let input_name := compute_new_name (.inputName name member_count) field_name
            match parse_arg_type_literal fuel input_name (.typeLit lit) optional ctx with
            | .error e => .error e
            | .ok (ty, ctx1) => .ok (⟨name, ty⟩, ctx1)
          | .unionType uni =>
            if !is_nullable_union (.unionType uni) then
              .error (.err "Unions as field args must be nullable")
            else
              match unwrap_union uni with
              | .error e => .error e
              | .ok unwrapped =>
                match unwrapped with
                | .typeLit lit2 =>
                  let input_name := compute_new_name (.inputName name member_count) field_name
                  match parse_arg_type_literal fuel input_name (.typeLit lit2) true ctx with
                  | .error e => .error e
                  | .ok (ty, ctx1) => .ok (⟨name, ty⟩, ctx1)
                | _ =>
                  match parse_type fuel name unwrapped true ctx with
                  | .error e => .error e
                  | .ok ((ty, _), ctx1) => .ok (⟨name, ty⟩, ctx1)
          | _ =>
            match parse_type fuel name ann optional ctx with
            | .error e => .error e
            | .ok ((ty, _), ctx1) => .ok (⟨name, ty⟩, ctx1)

/-- `CodeGenCtx::parse_arg_type_literal`: synthesize the input definition and
reference it, `NonNull` unless the member is optional. -/
def parse_arg_type_literal (fuel : Nat) (name : String) (ty : TsType) (optional : Bool)
    (ctx : CodeGenCtx) : PRes Type_ :=
  match fuel with
  | 0 => .error .fuel
  | fuel + 1 =>
    match parse_type_literal fuel .inputK name ty ctx with
    | .error e => .error e
    | .ok (_, ctx1) =>
      if !optional then .ok (.nonNull (.namedType name), ctx1)
      else .ok (.namedType name, ctx1)

/-- `CodeGenCtx::parse_type_literal`: build and push a definition for an
anonymous object literal under a synthesized name. -/
def parse_type_literal (fuel : Nat) (kind : FieldKind) (new_name : String) (ty : TsType)
    (ctx : CodeGenCtx) : PRes Unit :=
  match fuel with
  | 0 => .error .fuel
  | fuel + 1 =>
    match kind with
    | .inputK =>
      match parse_typed_fields fuel .inputK ty ctx with
      | .error e => .error e
      | .ok (fields, ctx1) =>
        match collectInputs fields with
        | none => .error (.panic "ParsedField input unwrap")
        | some fs =>
          .ok ((), { ctx1 with schema := ctx1.schema ++ [.inputD ⟨new_name, fs⟩] })
    | .objectK =>
      match parse_typed_fields fuel .objectK ty ctx with
      | .error e => .error e
      | .ok (fields, ctx1) =>
        match collectObjects fields with
        | none => .error (.panic "ParsedField object unwrap")
        | some fs =>
          .ok ((), { ctx1 with schema := ctx1.schema ++ [.objectD ⟨new_name, fs⟩] })

end

/-- Render one GraphQL type to SDL text. -/
def renderType : Type_ → String
  | .namedType name => name
  | .list ty => "[" ++ renderType ty ++ "]"
  | .nonNull ty => renderType ty ++ "!"

/-- Render an argument list (comma separated). -/
def renderArgs : List InputValue → String
  | [] => ""
  | [a] => a.name ++ ": " ++ renderType a.type_
  | a :: rest => a.name ++ ": " ++ renderType a.type_ ++ ", " ++ renderArgs rest

/-- Render one object field line (2-space indentation). -/
def renderField (f : Field) : String :=
  match f.args with
  | [] => "  " ++ f.name ++ ": " ++ renderType f.type_ ++ "\n"
  | _ => "  " ++ f.name ++ "(" ++ renderArgs f.args ++ "): " ++ renderType f.type_ ++ "\n"

/-- Render one input field line. -/
def renderInputField (f : InputField) : String :=
  "  " ++ f.name ++ ": " ++ renderType f.type_ ++ "\n"

/-- Render one schema definition block. -/
def renderDef : SchemaDef → String
  | .objectD d =>
    "type " ++ d.name ++ " \x7b\n" ++ String.join (d.fields.map renderField) ++ "\x7d\n"
  | .inputD d =>
    "input " ++ d.name ++ " \x7b\n" ++ String.join (d.fields.map renderInputField) ++ "\x7d\n"

/-- `Schema::finish`: render all accumulated definitions in insertion order. -/
def CodeGenCtx.finish (ctx : CodeGenCtx) : String :=
  String.join (ctx.schema.map renderDef)

/-- `generate_schema`: run the driver over the module and render the SDL. -/
def generate_schema (fuel : Nat) (prog : Module)
    (manifest : List (String × GraphQLKind)) : Except Failure String :=
  match parse_items fuel prog.body (CodeGenCtx.new manifest) with
  | .error e => .error e
  | .ok (_, ctx) => .ok ctx.finish

/-! ## Invariant predicates on produced GraphQL values -/

/-- Whether a type is a direct `NonNull` wrapper. -/
def isNonNull : Type_ → Bool
  | .nonNull _ => true
  | _ => false

/-- The shape invariant claimed for produced types: `NonNull` never directly
wraps another `NonNull`. -/
def typeOk : Type_ → Bool
  | .namedType _ => true
  | .list t => typeOk t
  | .nonNull t => !isNonNull t && typeOk t

/-- The invariant on one argument. -/
def inputValueOk (iv : InputValue) : Bool := typeOk iv.type_

/-- The invariant on an optional argument list. -/
def argsOk : Option (List InputValue) → Bool
  | none => true
  | some ivs => ivs.all inputValueOk

/-- The invariant on one object field (type and argument types). -/
def fieldOk (f : Field) : Bool := typeOk f.type_ && f.args.all inputValueOk

/-- The invariant on one input field. -/
def inputFieldOk (f : InputField) : Bool := typeOk f.type_

/-- The invariant on one parsed field. -/
def parsedFieldOk : ParsedField → Bool
  | .inputF f => inputFieldOk f
  | .objectF f => fieldOk f

/-- The invariant on one schema definition. -/
def defOk : SchemaDef → Bool
  | .objectD d => d.fields.all fieldOk
  | .inputD d => d.fields.all inputFieldOk

/-- The invariant on the whole accumulated schema. -/
def schemaOk (s : List SchemaDef) : Bool := s.all defOk

/-- The invariant on a generator context: every definition already handed to
the schema accumulator satisfies the shape invariant. -/
def CtxOk (ctx : CodeGenCtx) : Prop := schemaOk ctx.schema = true

/-! ## Context-flag bookkeeping (claim C10) -/

/-- After any generator step the positional flags are either exactly the
flags of the starting context or both cleared to `false`. -/
def flagsPreservedOrCleared (ctx ctx1 : CodeGenCtx) : Prop :=
  (ctx1.parsing_inputs = ctx.parsing_inputs ∧ ctx1.parsing_output = ctx.parsing_output) ∨
  (ctx1.parsing_inputs = false ∧ ctx1.parsing_output = false)

theorem flagsPreservedOrCleared.refl (a : CodeGenCtx) : flagsPreservedOrCleared a a :=
  Or.inl ⟨rfl, rfl⟩

theorem flagsPreservedOrCleared.trans {a b c : CodeGenCtx}
    (h1 : flagsPreservedOrCleared a b) (h2 : flagsPreservedOrCleared b c) :
    flagsPreservedOrCleared a c := by
  rcases h1 with ⟨i1, o1⟩ | ⟨i1, o1⟩ <;> rcases h2 with ⟨i2, o2⟩ | ⟨i2, o2⟩ <;>
    simp [flagsPreservedOrCleared, *]

theorem flagsPreservedOrCleared.schema (a : CodeGenCtx) (s : List SchemaDef) :
    flagsPreservedOrCleared a { a with schema := s } :=
  Or.inl ⟨rfl, rfl⟩

theorem flags_all : ∀ n : Nat,
    (∀ items ctx r ctx1, parse_items n items ctx = .ok (r, ctx1) → flagsPreservedOrCleared ctx ctx1) ∧
    (∀ s ctx r ctx1, parse_statement n s ctx = .ok (r, ctx1) → flagsPreservedOrCleared ctx ctx1) ∧
    (∀ k t ctx r ctx1, parse_typed_fields n k t ctx = .ok (r, ctx1) → flagsPreservedOrCleared ctx ctx1) ∧
    (∀ k ms ctx r ctx1, parse_typed_fields_loop n k ms ctx = .ok (r, ctx1) → flagsPreservedOrCleared ctx ctx1) ∧
    (∀ k key opt ann ctx r ctx1, parse_field n k key opt ann ctx = .ok (r, ctx1) → flagsPreservedOrCleared ctx ctx1) ∧
    (∀ f t opt ctx r ctx1, parse_type n f t opt ctx = .ok (r, ctx1) → flagsPreservedOrCleared ctx ctx1) ∧
    (∀ f tn ps ctx r ctx1, parse_type_ref n f tn ps ctx = .ok (r, ctx1) → flagsPreservedOrCleared ctx ctx1) ∧
    (∀ f ms cnt ctx r ctx1, parse_arg_members n f ms cnt ctx = .ok (r, ctx1) → flagsPreservedOrCleared ctx ctx1) ∧
    (∀ f m cnt ctx r ctx1, parse_arg_member n f m cnt ctx = .ok (r, ctx1) → flagsPreservedOrCleared ctx ctx1) ∧
    (∀ nm t opt ctx r ctx1, parse_arg_type_literal n nm t opt ctx = .ok (r, ctx1) → flagsPreservedOrCleared ctx ctx1) ∧
    (∀ k nm t ctx r ctx1, parse_type_literal n k nm t ctx = .ok (r, ctx1) → flagsPreservedOrCleared ctx ctx1) := by
  intro n
  induction n with
  | zero =>
    refine ⟨?_, ?_, ?_, ?_, ?_, ?_, ?_, ?_, ?_, ?_, ?_⟩
    · intro a b c d h; simp [parse_items] at h
    · intro a b c d h; simp [parse_statement] at h
    · intro a b c d e h; simp [parse_typed_fields] at h
    · intro a b c d e h; simp [parse_typed_fields_loop] at h
    · intro a b c d e f g h; simp [parse_field] at h
    · intro a b c d e f h; simp [parse_type] at h
    · intro a b c d e f h; simp [parse_type_ref] at h
    · intro a b c d e f h; simp [parse_arg_members] at h
    · intro a b c d e f h; simp [parse_arg_member] at h
    · intro a b c d e f h; simp [parse_arg_type_literal] at h
    · intro a b c d e f h; simp [parse_type_literal] at h
  | succ n ih =>
    obtain ⟨ihItems, ihStmt, ihTF, ihTFL, ihField, ihType, ihRef, ihArgs, ihArg, ihATL, ihTL⟩ := ih
    refine ⟨?_, ?_, ?_, ?_, ?_, ?_, ?_, ?_, ?_, ?_, ?_⟩
    · -- parse_items
      intro items ctx r ctx1 h
      simp only [parse_items] at h
      split at h
      · cases h; exact .refl _
      · exact ihItems _ _ _ _ h
      · split at h
        · cases h
        · rename_i heq
          exact .trans (ihStmt _ _ _ _ heq) (ihItems _ _ _ _ h)
    · -- parse_statement
      intro s ctx r ctx1 h
      simp only [parse_statement] at h
      split at h
      · cases h
      · split at h
        · split at h
          · cases h
          · rename_i heq
            split at h
            · cases h
            · cases h; exact .trans (ihTF _ _ _ _ _ heq) (.schema _ _)
        · split at h
          · cases h
          · rename_i heq
            split at h
            · cases h
            · cases h; exact .trans (ihTF _ _ _ _ _ heq) (.schema _ _)
        · cases h; exact .refl _
    · -- parse_typed_fields
      intro k t ctx r ctx1 h
      simp only [parse_typed_fields] at h
      split at h
      · exact ihTFL _ _ _ _ _ h
      · cases h
    · -- parse_typed_fields_loop
      intro k ms ctx r ctx1 h
      simp only [parse_typed_fields_loop] at h
      split at h
      · cases h; exact .refl _
      · split at h
        · cases h
        · rename_i heq
          split at h
          · cases h
          · rename_i heq2
            cases h; exact .trans (ihField _ _ _ _ _ _ _ heq) (ihTFL _ _ _ _ _ heq2)
      · cases h
    · -- parse_field
      intro k key opt ann ctx r ctx1 h
      simp only [parse_field] at h
      split at h
      · cases h
      · split at h
        · cases h
        · split at h
          · cases h
          · rename_i heq
            cases h; exact ihType _ _ _ _ _ _ heq
          · rename_i heq
            split at h
            · cases h
            · cases h; exact ihType _ _ _ _ _ _ heq
    · -- parse_type
      intro f t opt ctx r ctx1 h
      simp only [parse_type] at h
      split at h
      · -- keyword
        split at h
        · cases h
        · cases h; exact .refl _
      · -- array
        split at h
        · -- output-literal special case
          split at h
          · cases h
          · rename_i heq
            cases h; exact ihTL _ _ _ _ _ _ heq
        · -- general case
          split at h
          · cases h
          · rename_i heq
            cases h; exact ihType _ _ _ _ _ _ heq
      · -- typeRef
        split at h
        · cases h
        · rename_i heq
          cases h; exact ihRef _ _ _ _ _ _ heq
      · -- fnType
        split at h
        · cases h
        · split at h
          · split at h
            · cases h
            · rename_i heq
              split at h
              · cases h
              · rename_i heq2
                cases h
                refine Or.inr ⟨?_, rfl⟩
                rcases ihType _ _ _ _ _ _ heq2 with ⟨hi, _⟩ | ⟨hi, _⟩ <;> simpa using hi
          · cases h
      · -- union
        split at h
        · cases h
        · exact ihType _ _ _ _ _ _ h
      · -- catch-all
        cases h
    · -- parse_type_ref
      intro f tn ps ctx r ctx1 h
      simp only [parse_type_ref] at h
      split at h
      · cases h
      · split at h
        · -- not Promise
          split at h
          · split at h
            · cases h
            · cases h; exact .refl _
          · split at h
            · cases h
            · cases h; exact .refl _
          · cases h; exact .refl _
          · cases h
        · -- Promise
          split at h
          · cases h
          · split at h
            · split at h
              · -- nullable union
                split at h
                · cases h
                · split at h
                  · split at h
                    · cases h
                    · rename_i heq
                      cases h; exact ihTL _ _ _ _ _ _ heq
                  · exact ihType _ _ _ _ _ _ h
              · -- type literal
                split at h
                · cases h
                · rename_i heq
                  cases h; exact ihTL _ _ _ _ _ _ heq
              · exact ihType _ _ _ _ _ _ h
            · cases h
    · -- parse_arg_members
      intro f ms cnt ctx r ctx1 h
      simp only [parse_arg_members] at h
      split at h
      · cases h; exact .refl _
      · split at h
        · cases h
        · rename_i heq
          split at h
          · cases h
          · rename_i heq2
            cases h; exact .trans (ihArg _ _ _ _ _ _ heq) (ihArgs _ _ _ _ _ _ heq2)
    · -- parse_arg_member
      intro f m cnt ctx r ctx1 h
      simp only [parse_arg_member] at h
      split at h
      · cases h
      · split at h
        · cases h
        · split at h
          · cases h
          · split at h
            · -- typeLit
              split at h
              · cases h
              · rename_i heq
                cases h; exact ihATL _ _ _ _ _ _ heq
            · -- union
              split at h
              · cases h
              · split at h
                · cases h
                · split at h
                  · split at h
                    · cases h
                    · rename_i heq
                      cases h; exact ihATL _ _ _ _ _ _ heq
                  · split at h
                    · cases h
                    · rename_i heq
                      cases h; exact ihType _ _ _ _ _ _ heq
            · -- other
              split at h
              · cases h
              · rename_i heq
                cases h; exact ihType _ _ _ _ _ _ heq
    · -- parse_arg_type_literal
      intro nm t opt ctx r ctx1 h
      simp only [parse_arg_type_literal] at h
      split at h
      · cases h
      · rename_i heq
        split at h
        · cases h; exact ihTL _ _ _ _ _ _ heq
        · cases h; exact ihTL _ _ _ _ _ _ heq
    · -- parse_type_literal
      intro k nm t ctx r ctx1 h
      simp only [parse_type_literal] at h
      split at h
      · split at h
        · cases h
        · rename_i heq
          split at h
          · cases h
          · cases h; exact .trans (ihTF _ _ _ _ _ heq) (.schema _ _)
      · split at h
        · cases h
        · rename_i heq
          split at h
          · cases h
          · cases h; exact .trans (ihTF _ _ _ _ _ heq) (.schema _ _)

/-- Shape of `parse_keyword_type` successes: always a bare named scalar. -/
theorem parse_keyword_type_shape (k : TsKeywordKind) (ty : Type_)
    (h : parse_keyword_type k = .ok ty) : isNonNull ty = false ∧ typeOk ty = true := by
  cases k <;> simp [parse_keyword_type] at h <;> simp [← h, isNonNull, typeOk]

/-- Shape of `parse_type_ref` successes on a non-Promise identifier: the
manifest lookup path returns the bare named type, no arguments, and leaves
the context untouched. -/
theorem parse_type_ref_nonpromise_shape (fuel : Nat) (f n : String)
    (ps : Option (List TsType)) (ctx : CodeGenCtx) (ty : Type_)
    (args : Option (List InputValue)) (ctx1 : CodeGenCtx) (hn : n ≠ "Promise")
    (h : parse_type_ref fuel f (.ident n) ps ctx = .ok ((ty, args), ctx1)) :
    ty = .namedType n ∧ args = none ∧ ctx1 = ctx := by
  cases fuel with
  | zero => simp [parse_type_ref] at h
  | succ m =>
    simp only [parse_type_ref] at h
    rw [if_pos hn] at h
    cases hm : manifestGet ctx.manifest n with
    | none => simp only [hm] at h; cases h
    | some k =>
      cases k with
      | object =>
        simp only [hm] at h
        by_cases hpi : ctx.parsing_inputs = true
        · rw [if_pos hpi] at h; cases h
        · rw [if_neg hpi] at h; cases h; exact ⟨rfl, rfl, rfl⟩
      | input =>
        simp only [hm] at h
        by_cases hpi : (!ctx.parsing_inputs) = true
        · rw [if_pos hpi] at h; cases h
        · rw [if_neg hpi] at h; cases h; exact ⟨rfl, rfl, rfl⟩
      | enum => simp only [hm] at h; cases h; exact ⟨rfl, rfl, rfl⟩

/-- Types whose resolution with `optional := true` never returns a direct
`NonNull`: everything except a `Promise` reference reached along the spine
of function-return and union-member unwrapping. -/
inductive NotNNSafe : TsType → Prop where
  | kw (k : TsKeywordKind) : NotNNSafe (.keyword k)
  | arr (e : TsType) : NotNNSafe (.array e)
  | refNonPromise (n : String) (ps : Option (List TsType)) :
      n ≠ "Promise" → NotNNSafe (.typeRef (.ident n) ps)
  | refQualified (ps : Option (List TsType)) : NotNNSafe (.typeRef .qualified ps)
  | fn (params : List TsFnParam) (ret : TsType) :
      NotNNSafe ret → NotNNSafe (.fnType params ret)
  | uni (ts : List TsType) :
      (∀ M, unwrap_union ts = .ok M → NotNNSafe M) → NotNNSafe (.unionType ts)
  | inter (ts : List TsType) : NotNNSafe (.intersectionType ts)
  | lit (ms : List TsTypeElement) : NotNNSafe (.typeLit ms)
  | oth : NotNNSafe .otherType

/-- Resolving a `NotNNSafe` type with `optional := true` never produces a
direct `NonNull` wrapper. -/
theorem parse_type_true_not_nonNull : ∀ (fuel : Nat) (f : String) (t : TsType)
    (ctx : CodeGenCtx) (ty : Type_) (args : Option (List InputValue)) (ctx1 : CodeGenCtx),
    NotNNSafe t → parse_type fuel f t true ctx = .ok ((ty, args), ctx1) →
    isNonNull ty = false := by
  intro fuel
  induction fuel with
  | zero => intro f t ctx ty args ctx1 hs h; simp [parse_type] at h
  | succ n ih =>
    intro f t ctx ty args ctx1 hs h
    cases hs with
    | kw k =>
      simp only [parse_type] at h
      split at h
      · cases h
      · rename_i ty0 heq
        cases h
        simpa [nonNullWrap] using (parse_keyword_type_shape k ty0 heq).1
    | arr e =>
      simp only [parse_type] at h
      split at h
      · split at h
        · cases h
        · cases h; simp [nonNullWrap, isNonNull]
      · split at h
        · cases h
        · cases h; simp [nonNullWrap, isNonNull]
    | refNonPromise nm ps hn =>
      simp only [parse_type] at h
      split at h
      · cases h
      · rename_i heq
        cases h
        obtain ⟨hty, -, -⟩ := parse_type_ref_nonpromise_shape n f nm ps ctx _ _ _ hn heq
        simp [nonNullWrap, hty, isNonNull]
    | refQualified ps =>
      simp only [parse_type] at h
      split at h
      · cases h
      · rename_i heq
        cases n with
        | zero => simp [parse_type_ref] at heq
        | succ m => simp [parse_type_ref] at heq
    | fn params ret hret =>
      simp only [parse_type] at h
      split at h
      · cases h
      · split at h
        · split at h
          · cases h
          · split at h
            · cases h
            · rename_i heq2
              cases h
              exact ih _ _ _ _ _ _ hret heq2
        · cases h
    | uni ts hmem =>
      simp only [parse_type] at h
      split at h
      · cases h
      · rename_i typ heq
        exact ih _ _ _ _ _ _ (hmem typ heq) h
    | inter ts => simp [parse_type] at h
    | lit ms => simp [parse_type] at h
    | oth => simp [parse_type] at h

/-! ## Claim C2 -/

/-- C2 (code bug): the claim — and the doc comment of `unwrap_union`, whose
example reads `User | string -> Error` — says a union with two or more
non-nullable alternatives must fail with a malformed-union error.  The code
instead returns the first non-nullable member and never checks for further
ones: `unwrap_union` accepts `User | string` and `string | number`, and a
whole translation containing the field `x: string | number` succeeds,
producing `x: String`. -/
theorem c2_multi_nonnull_union_accepted :
    unwrap_union [.typeRef (.ident "User") none, .keyword .stringKw]
        = .ok (.typeRef (.ident "User") none) ∧
    unwrap_union [.keyword .stringKw, .keyword .numberKw] = .ok (.keyword .stringKw) ∧
    parse_items 20 [.stmt (.declTypeAlias "T" (.typeLit [
        .propSig (.ident "x") false (some (.unionType [.keyword .stringKw, .keyword .numberKw]))]))]
        (CodeGenCtx.new [("T", .object)])
      = .ok ((), { schema := [.objectD ⟨"T", [⟨"x", .namedType "String", []⟩]⟩],
                   manifest := [("T", .object)],
                   parsing_inputs := false, parsing_output := false }) :=
  ⟨rfl, rfl, rfl⟩

/-! ## Claim C3 -/

/-- C3 counterexample: a top-level type alias whose name is absent from the
manifest is skipped by the codegen.rs driver — the translation succeeds and
the schema stays empty, so no Object definition is built from its members. -/
theorem c3_counterexample :
    parse_items 10 [.stmt (.declTypeAlias "Foo" (.typeLit [
        .propSig (.ident "x") false (some (.keyword .stringKw))]))]
      (CodeGenCtx.new [("Other", .object)])
    = .ok ((), CodeGenCtx.new [("Other", .object)]) ∧
    (CodeGenCtx.new [("Other", .object)]).schema = [] :=
  ⟨rfl, rfl⟩

/-- C3 amended: for every top-level type-alias declaration whose name is
absent from the manifest, the driver skips the declaration entirely — the
context (schema included) is returned unchanged — rather than building an
Object definition by default (the Object-by-default behavior belongs to the
older lib.rs variant, not to the codegen.rs driver in force). -/
theorem c3_manifest_absent_skipped (fuel : Nat) (id : String) (ty : TsType)
    (ctx : CodeGenCtx) (h : manifestGet ctx.manifest id = none) :
    parse_statement (fuel + 1) (.declTypeAlias id ty) ctx = .ok ((), ctx) := by
  simp only [parse_statement, h]

/-- Witness for C3's amended theorem at a concrete declaration. -/
theorem c3_manifest_absent_skipped_witness :
    manifestGet (CodeGenCtx.new []).manifest "Foo" = none ∧
    parse_statement 1 (.declTypeAlias "Foo" .otherType) (CodeGenCtx.new [])
      = .ok ((), CodeGenCtx.new []) :=
  ⟨rfl, c3_manifest_absent_skipped 0 "Foo" .otherType (CodeGenCtx.new []) rfl⟩

/-! ## Claim C4 -/

/-- C4 counterexample: the claim says an unsupported type-expression kind
makes the translation return an error value without crashing or panicking.
On an unsupported keyword (`bigint`) and on an intersection-typed field the
code instead hits `todo!()` — a panic, modeled as `Failure.panic`, distinct
from the returned-error outcome `Failure.err` — and no SDL text is
produced. -/
theorem c4_counterexample :
    parse_keyword_type .bigIntKw = .error (.panic "Unsupported keyword type") ∧
    generate_schema 10 ⟨[.stmt (.declTypeAlias "T" (.typeLit [.propSig (.ident "x") false
        (some (.intersectionType [.keyword .stringKw, .keyword .numberKw]))]))]⟩
        [("T", .object)]
      = .error (.panic "parse_type: unsupported type") :=
  ⟨rfl, rfl⟩

/-- C4 amended: a type expression outside the supported subset aborts the
translation with no SDL produced, but through a `todo!()` panic rather than
a returned error value: unsupported primitive keywords, intersection types,
type literals in positions with no pre-assigned name, and non-type-literal
top-level alias bodies all panic. -/
theorem c4_unsupported_shapes_panic (k : TsKeywordKind) (fuel : Nat) (f : String)
    (ts : List TsType) (ms : List TsTypeElement) (opt : Bool) (ctx : CodeGenCtx)
    (kind : FieldKind) (t : TsType)
    (hk1 : k ≠ .stringKw) (hk2 : k ≠ .numberKw) (hk3 : k ≠ .booleanKw)
    (ht : ∀ ms2, t ≠ .typeLit ms2) :
    parse_keyword_type k = .error (.panic "Unsupported keyword type") ∧
    parse_type (fuel + 1) f (.intersectionType ts) opt ctx
      = .error (.panic "parse_type: unsupported type") ∧
    parse_type (fuel + 1) f (.typeLit ms) opt ctx
      = .error (.panic "parse_type: unsupported type") ∧
    parse_type (fuel + 1) f .otherType opt ctx
      = .error (.panic "parse_type: unsupported type") ∧
    parse_typed_fields (fuel + 1) kind t ctx
      = .error (.panic "Not implemented parsing in this context") := by
  refine ⟨?_, rfl, rfl, rfl, ?_⟩
  · cases k <;> first
      | rfl
      | exact absurd rfl hk1
      | exact absurd rfl hk2
      | exact absurd rfl hk3
  · cases t <;> first
      | rfl
      | exact absurd rfl (ht _)

/-- Witness for C4's amended theorem at concrete unsupported shapes. -/
theorem c4_unsupported_shapes_panic_witness :
    parse_keyword_type .bigIntKw = .error (.panic "Unsupported keyword type") ∧
    parse_type 1 "f" (.intersectionType []) false (CodeGenCtx.new [])
      = .error (.panic "parse_type: unsupported type") ∧
    parse_type 1 "f" (.typeLit []) false (CodeGenCtx.new [])
      = .error (.panic "parse_type: unsupported type") ∧
    parse_type 1 "f" .otherType false (CodeGenCtx.new [])
      = .error (.panic "parse_type: unsupported type") ∧
    parse_typed_fields 1 .objectK .otherType (CodeGenCtx.new [])
      = .error (.panic "Not implemented parsing in this context") :=
  c4_unsupported_shapes_panic .bigIntKw 0 "f" [] [] false (CodeGenCtx.new []) .objectK
    .otherType (by decide) (by decide) (by decide) (by intro ms2 hc; cases hc)

/-! ## Claim C5 -/

/-- C5: resolving a named reference (other than `Promise`) enforces the
positional rules: a manifest-Input name in output position (the
`parsing_inputs` flag off) fails, a manifest-Object name in input position
(the flag on) fails, and a reference whose kind matches its position — or an
Enum-kind reference in either position — resolves to `NamedType` of that
name (subject to the caller's `NonNull` finalization). -/
theorem c5_positional_checks (fuel : Nat) (f name : String) (ps : Option (List TsType))
    (opt : Bool) (ctx : CodeGenCtx) (hn : name ≠ "Promise") :
    (manifestGet ctx.manifest name = some .input → ctx.parsing_inputs = false →
      parse_type (fuel + 2) f (.typeRef (.ident name) ps) opt ctx
        = .error (.err ("Field type can\x27t be an Input (check: " ++ name ++ ")"))) ∧
    (manifestGet ctx.manifest name = some .object → ctx.parsing_inputs = true →
      parse_type (fuel + 2) f (.typeRef (.ident name) ps) opt ctx
        = .error (.err ("Field args can only be Inputs (check: " ++ name ++ ")"))) ∧
    (manifestGet ctx.manifest name = some .object → ctx.parsing_inputs = false →
      parse_type (fuel + 2) f (.typeRef (.ident name) ps) opt ctx
        = .ok ((nonNullWrap opt (.namedType name), none), ctx)) ∧
    (manifestGet ctx.manifest name = some .input → ctx.parsing_inputs = true →
      parse_type (fuel + 2) f (.typeRef (.ident name) ps) opt ctx
        = .ok ((nonNullWrap opt (.namedType name), none), ctx)) ∧
    (manifestGet ctx.manifest name = some .enum →
      parse_type (fuel + 2) f (.typeRef (.ident name) ps) opt ctx
        = .ok ((nonNullWrap opt (.namedType name), none), ctx)) := by
  refine ⟨fun h1 h2 => ?_, fun h1 h2 => ?_, fun h1 h2 => ?_, fun h1 h2 => ?_, fun h1 => ?_⟩
  all_goals simp [parse_type, parse_type_ref, hn, h1, *]

/-- Witness for C5 at concrete manifests, flags and names. -/
theorem c5_positional_checks_witness :
    parse_type 2 "f" (.typeRef (.ident "In") none) false
        ⟨[], [("In", .input)], false, false⟩
      = .error (.err ("Field type can\x27t be an Input (check: " ++ "In" ++ ")")) ∧
    parse_type 2 "f" (.typeRef (.ident "Ob") none) false
        ⟨[], [("Ob", .object)], true, false⟩
      = .error (.err ("Field args can only be Inputs (check: " ++ "Ob" ++ ")")) ∧
    parse_type 2 "f" (.typeRef (.ident "Ob") none) false
        ⟨[], [("Ob", .object)], false, false⟩
      = .ok ((nonNullWrap false (.namedType "Ob"), none), ⟨[], [("Ob", .object)], false, false⟩) ∧
    parse_type 2 "f" (.typeRef (.ident "In") none) true
        ⟨[], [("In", .input)], true, false⟩
      = .ok ((nonNullWrap true (.namedType "In"), none), ⟨[], [("In", .input)], true, false⟩) ∧
    parse_type 2 "f" (.typeRef (.ident "En") none) false
        ⟨[], [("En", .enum)], false, false⟩
      = .ok ((nonNullWrap false (.namedType "En"), none), ⟨[], [("En", .enum)], false, false⟩) :=
  ⟨(c5_positional_checks 0 "f" "In" none false _ (by decide)).1 rfl rfl,
   (c5_positional_checks 0 "f" "Ob" none false _ (by decide)).2.1 rfl rfl,
   (c5_positional_checks 0 "f" "Ob" none false _ (by decide)).2.2.1 rfl rfl,
   (c5_positional_checks 0 "f" "In" none true _ (by decide)).2.2.2.1 rfl rfl,
   (c5_positional_checks 0 "f" "En" none false _ (by decide)).2.2.2.2 rfl⟩

/-! ## Claim C7 -/

/-- C7: every named type reference other than `Promise` whose identifier is
absent from the manifest makes the resolver fail with an undefined-type
error; since every reference is resolved through this single `typeRef` arm
of `parse_type`, the policy applies at every reference site. -/
theorem c7_undefined_reference (fuel : Nat) (f name : String) (ps : Option (List TsType))
    (opt : Bool) (ctx : CodeGenCtx) (hn : name ≠ "Promise")
    (h : manifestGet ctx.manifest name = none) :
    parse_type (fuel + 2) f (.typeRef (.ident name) ps) opt ctx
      = .error (.err ("Undefined type: " ++ name)) := by
  simp [parse_type, parse_type_ref, hn, h]

/-- Witness for C7 at a concrete unresolved reference. -/
theorem c7_undefined_reference_witness :
    ("User" : String) ≠ "Promise" ∧
    manifestGet (CodeGenCtx.new []).manifest "User" = none ∧
    parse_type 2 "f" (.typeRef (.ident "User") none) false (CodeGenCtx.new [])
      = .error (.err ("Undefined type: " ++ "User")) :=
  ⟨by decide, rfl,
   c7_undefined_reference 0 "f" "User" none false (CodeGenCtx.new []) (by decide) rfl⟩

/-! ## Claim C10 -/

/-- C10: the function-type arm of `parse_type` sets `parsing_inputs` before
its argument walk and unconditionally resets it to `false` afterwards, and
likewise `parsing_output` around the return-type walk — it restores neither
flag to its entry value, so both flags are `false` after every completed
resolution of a function type.  Consequently (second conjunct, concrete
demonstration) a function type nested as the first member of an argument
object disables input-position checking for the remaining members: the
manifest-Object reference `b: Obj` inside the argument object is accepted
instead of being rejected as a positional violation. -/
theorem c10_fn_type_clears_flags :
    (∀ fuel f params ret opt ctx r ctx1,
      parse_type fuel f (.fnType params ret) opt ctx = .ok (r, ctx1) →
      ctx1.parsing_inputs = false ∧ ctx1.parsing_output = false) ∧
    parse_items 40 [
        .stmt (.declTypeAlias "Obj" (.typeLit [.propSig (.ident "z") false
          (some (.keyword .stringKw))])),
        .stmt (.declTypeAlias "Query" (.typeLit [
          .propSig (.ident "q") false (some (.fnType
            [.identP (some (.typeLit [
              .propSig (.ident "a") false (some (.fnType
                [.identP (some (.typeLit [.propSig (.ident "y") false
                  (some (.keyword .stringKw))]))]
                (.typeRef (.ident "Promise") (some [.keyword .stringKw])))),
              .propSig (.ident "b") false (some (.typeRef (.ident "Obj") none))]))]
            (.typeRef (.ident "Promise") (some [.keyword .booleanKw]))))]))]
        (CodeGenCtx.new [("Obj", .object), ("Query", .object)])
      = .ok ((),
          { schema := [
              .objectD ⟨"Obj", [⟨"z", .nonNull (.namedType "String"), []⟩]⟩,
              .objectD ⟨"Query", [⟨"q", .nonNull (.namedType "Boolean"),
                [⟨"a", .nonNull (.namedType "String")⟩,
                 ⟨"b", .nonNull (.namedType "Obj")⟩]⟩]⟩],
            manifest := [("Obj", .object), ("Query", .object)],
            parsing_inputs := false, parsing_output := false }) := by
  constructor
  · intro fuel f params ret opt ctx r ctx1 h
    cases fuel with
    | zero => simp [parse_type] at h
    | succ n =>
      simp only [parse_type] at h
      split at h
      · cases h
      · split at h
        · split at h
          · cases h
          · rename_i heq
            split at h
            · cases h
            · rename_i heq2
              cases h
              refine ⟨?_, rfl⟩
              rcases ((flags_all n).2.2.2.2.2.1) _ _ _ _ _ _ heq2 with ⟨hi, _⟩ | ⟨hi, _⟩ <;>
                simpa using hi
        · cases h
  · rfl

/-- Witness for C10's flag-reset statement at a concrete function type. -/
theorem c10_fn_type_clears_flags_witness :
    (CodeGenCtx.new []).parsing_inputs = false ∧
    (CodeGenCtx.new []).parsing_output = false :=
  c10_fn_type_clears_flags.1 10 "q"
    [.identP (some (.typeLit [.propSig (.ident "x") false (some (.keyword .stringKw))]))]
    (.keyword .booleanKw) false (CodeGenCtx.new [])
    (.namedType "Boolean", some [⟨"x", .nonNull (.namedType "String")⟩])
    (CodeGenCtx.new []) rfl

/-! ## Claim C8 -/

/-- C8 counterexample: the claim says an array element is never resolved as
`NonNull`, so `[T!]` is never produced.  For the required property
`x: Promise<string>[]` the element resolves through the Promise wrapper to
`NonNull(String)`, so the field type is `[String!]!`. -/
theorem c8_counterexample :
    parse_type 5 "x" (.array (.typeRef (.ident "Promise") (some [.keyword .stringKw]))) false
        (CodeGenCtx.new [])
      = .ok ((.nonNull (.list (.nonNull (.namedType "String"))), none), CodeGenCtx.new []) ∧
    isNonNull (.nonNull (.namedType "String")) = true :=
  ⟨rfl, rfl⟩

/-- C8 amended: outside the output-position object-literal special case, an
array type `T[]` resolves to a `List` of the resolution of `T` with
`optional` forced to `true`, and the `List` itself is wrapped in `NonNull`
exactly when the property's own optional flag is `false` (the
`nonNullWrap` finalization); the element is never a direct `NonNull`
provided `T` does not resolve through a `Promise` wrapper (`NotNNSafe`);
nested arrays compose, `T[][]` resolving to `[[T]]`. -/
theorem c8_array_resolution :
    (∀ fuel (f : String) (T : TsType) (opt : Bool) (ctx : CodeGenCtx),
      (∀ ms, ctx.parsing_output = true → T ≠ .typeLit ms) →
      parse_type (fuel + 1) f (.array T) opt ctx
        = (match parse_type fuel f T true ctx with
           | .error e => .error e
           | .ok ((elem_ty, _), ctx1) =>
             .ok ((nonNullWrap opt (.list elem_ty), none), ctx1))) ∧
    (∀ fuel (f : String) (T : TsType) (ctx : CodeGenCtx) ty args ctx1, NotNNSafe T →
      parse_type fuel f T true ctx = .ok ((ty, args), ctx1) → isNonNull ty = false) ∧
    parse_type 3 "f" (.array (.array (.keyword .stringKw))) false (CodeGenCtx.new [])
      = .ok ((.nonNull (.list (.list (.namedType "String"))), none), CodeGenCtx.new []) := by
  refine ⟨?_, parse_type_true_not_nonNull, rfl⟩
  intro fuel f T opt ctx hspec
  simp only [parse_type]

/-- Witness for C8's amended theorem at a concrete array type. -/
theorem c8_array_resolution_witness :
    parse_type 3 "f" (.array (.keyword .stringKw)) false (CodeGenCtx.new [])
      = (match parse_type 2 "f" (.keyword .stringKw) true (CodeGenCtx.new []) with
         | .error e => .error e
         | .ok ((elem_ty, _), ctx1) =>
           .ok ((nonNullWrap false (.list elem_ty), none), ctx1)) ∧
    isNonNull (.namedType "String") = false :=
  ⟨c8_array_resolution.1 2 "f" (.keyword .stringKw) false (CodeGenCtx.new [])
      (fun ms h => by cases h),
   c8_array_resolution.2.1 2 "f" (.keyword .stringKw) (CodeGenCtx.new [])
      (.namedType "String") none (CodeGenCtx.new []) (NotNNSafe.kw _) rfl⟩

/-! ## Claim C9 -/

/-- C9: `upper_camel_case` uppercases the first character and leaves the
rest unchanged; a synthesized input type for an anonymous object-literal
argument member is named `UpperCamelCase(field_name) ++ "Input"` when the
enclosing parameter object has exactly one member and
`UpperCamelCase(field_name) ++ "Input" ++ UpperCamelCase(member_name)`
when it has more than one; and the argument itself keeps the member's
declared name, its type referencing the synthesized input type name
(`NonNull` unless the member is optional). -/
theorem c9_synthesized_input_naming (f m : String) (c : Char) (cs : List Char)
    (cnt fuel : Nat) (opt : Bool) (ms : List TsTypeElement) (ctx : CodeGenCtx)
    (iv : InputValue) (ctx1 : CodeGenCtx) (hc : 1 < cnt)
    (hp : parse_arg_member (fuel + 2) f (.propSig (.ident m) opt (some (.typeLit ms))) cnt ctx
        = .ok (iv, ctx1)) :
    upper_camel_case ⟨c :: cs⟩ = ⟨to_ascii_uppercase c :: cs⟩ ∧
    compute_new_name (.inputName m 1) f = upper_camel_case f ++ "Input" ∧
    compute_new_name (.inputName m cnt) f
      = upper_camel_case f ++ "Input" ++ upper_camel_case m ∧
    iv.name = m ∧
    iv.type_ = (if opt then Type_.namedType (compute_new_name (.inputName m cnt) f)
                else .nonNull (.namedType (compute_new_name (.inputName m cnt) f))) := by
  have hc1 : ¬ (cnt = 1) := by omega
  simp only [parse_arg_member] at hp
  split at hp
  · cases hp
  · rename_i heq
    simp only [parse_arg_type_literal] at heq
    split at heq
    · cases heq
    · split at heq
      · rename_i hopt
        cases heq
        cases hp
        refine ⟨rfl, by simp [compute_new_name], by simp [compute_new_name, hc1], rfl, ?_⟩
        have : opt = false := by simpa using hopt
        simp [this]
      · rename_i hopt
        cases heq
        cases hp
        refine ⟨rfl, by simp [compute_new_name], by simp [compute_new_name, hc1], rfl, ?_⟩
        have : opt = true := by simpa using hopt
        simp [this]

/-- Witness for C9 at the concrete field `findUser` with two-member
parameter object and member `user`. -/
theorem c9_synthesized_input_naming_witness :
    upper_camel_case ⟨'f' :: "indUser".data⟩ = ⟨to_ascii_uppercase 'f' :: "indUser".data⟩ ∧
    compute_new_name (.inputName "user" 1) "findUser" = upper_camel_case "findUser" ++ "Input" ∧
    compute_new_name (.inputName "user" 2) "findUser"
      = upper_camel_case "findUser" ++ "Input" ++ upper_camel_case "user" ∧
    (⟨"user", .nonNull (.namedType "FindUserInputUser")⟩ : InputValue).name = "user" ∧
    (⟨"user", .nonNull (.namedType "FindUserInputUser")⟩ : InputValue).type_
      = (if false then Type_.namedType (compute_new_name (.inputName "user" 2) "findUser")
         else .nonNull (.namedType (compute_new_name (.inputName "user" 2) "findUser"))) :=
  c9_synthesized_input_naming "findUser" "user" 'f' "indUser".data 2 10 false
    [.propSig (.ident "y") true (some (.keyword .stringKw))] (CodeGenCtx.new [])
    ⟨"user", .nonNull (.namedType "FindUserInputUser")⟩
    { schema := [.inputD ⟨"FindUserInputUser", [⟨"y", .namedType "String"⟩]⟩],
      manifest := [], parsing_inputs := false, parsing_output := false }
    (by omega) rfl

/-! ## Claim C6 -/

/-- C6 counterexample: the claim says that when the Promise payload `T` is
not a nullability union, the field type is the resolution of `T` wrapped in
`NonNull`.  For the field `findUser: (args: \x7b id: string \x7d) =>
Promise<string | number>` — whose payload is a union with no null/undefined
member, hence not a nullability union — the translation succeeds and the
field type is the bare `String`, not a `NonNull` wrapper. -/
theorem c6_counterexample :
    parse_items 20 [.stmt (.declTypeAlias "Query" (.typeLit [
        .propSig (.ident "findUser") false (some (.fnType
          [.identP (some (.typeLit [.propSig (.ident "id") false (some (.keyword .stringKw))]))]
          (.typeRef (.ident "Promise")
            (some [.unionType [.keyword .stringKw, .keyword .numberKw]]))))]))]
      (CodeGenCtx.new [("Query", .object)])
    = .ok ((), { schema := [.objectD ⟨"Query", [⟨"findUser", .namedType "String",
                    [⟨"id", .nonNull (.namedType "String")⟩]⟩]⟩],
                 manifest := [("Query", .object)],
                 parsing_inputs := false, parsing_output := false }) ∧
    is_nullable_union (.unionType [.keyword .stringKw, .keyword .numberKw]) = false ∧
    isNonNull (.namedType "String") = false :=
  ⟨rfl, rfl, rfl⟩

/-- C6 amended: for a field typed as a single-parameter function, the
field's own optional flag is discarded and the declared return type is
resolved with `optional := true` (first conjunct).  Resolving
`Promise<T>` with `optional := true` then proceeds by cases on `T`: a
nullability union whose non-null member is not an object literal resolves
to the resolution of that member with `optional := true` (second
conjunct, no `NonNull` added); an object-literal payload synthesizes an
Output object and returns `NonNull` of its name (third conjunct);
otherwise `T` is resolved as a required type with `optional := false`
(fourth conjunct) — which wraps in `NonNull` except when `T` is itself a
union or function type, whose branches decide nullability internally.
Concretely, `Promise<User | null>` yields `User` and `Promise<User>`
yields `User!` (fifth and sixth conjuncts). -/
theorem c6_promise_return_resolution :
    (∀ fuel (f : String) (ms : List TsTypeElement) (ret : TsType) (opt : Bool)
        (ctx : CodeGenCtx) (ivs : List InputValue) (ctx2 : CodeGenCtx),
      parse_arg_members fuel f ms ms.length { ctx with parsing_inputs := true }
          = .ok (ivs, ctx2) →
      parse_type (fuel + 1) f (.fnType [.identP (some (.typeLit ms))] ret) opt ctx
        = (match parse_type fuel f ret true
              { ctx2 with parsing_inputs := false, parsing_output := true } with
           | .error e => .error e
           | .ok ((rty, _), ctx4) =>
             .ok ((rty, some ivs), { ctx4 with parsing_output := false }))) ∧
    (∀ fuel (f : String) (us : List TsType) (M : TsType) (ctx : CodeGenCtx),
      is_nullable_union (.unionType us) = true → unwrap_union us = .ok M →
      (∀ ms2, M ≠ .typeLit ms2) →
      parse_type (fuel + 2) f (.typeRef (.ident "Promise") (some [.unionType us])) true ctx
        = parse_type fuel f M true ctx) ∧
    (∀ fuel (f : String) (ms2 : List TsTypeElement) (ctx : CodeGenCtx),
      parse_type (fuel + 2) f (.typeRef (.ident "Promise") (some [.typeLit ms2])) true ctx
        = (match parse_type_literal fuel .objectK (compute_new_name .outputName f)
              (.typeLit ms2) ctx with
           | .error e => .error e
           | .ok (_, ctx1) =>
             .ok ((.nonNull (.namedType (compute_new_name .outputName f)), none), ctx1))) ∧
    (∀ fuel (f : String) (T : TsType) (ctx : CodeGenCtx),
      is_nullable_union T = false → (∀ ms2, T ≠ .typeLit ms2) →
      parse_type (fuel + 2) f (.typeRef (.ident "Promise") (some [T])) true ctx
        = parse_type fuel "" T false ctx) ∧
    parse_items 30 [
      .stmt (.declTypeAlias "User" (.typeLit [.propSig (.ident "id") false
        (some (.keyword .stringKw))])),
      .stmt (.declTypeAlias "Query" (.typeLit [
        .propSig (.ident "findUser") false (some (.fnType
          [.identP (some (.typeLit [.propSig (.ident "id") false (some (.keyword .stringKw))]))]
          (.typeRef (.ident "Promise")
            (some [.unionType [.typeRef (.ident "User") none, .keyword .nullKw]]))))]))]
      (CodeGenCtx.new [("User", .object), ("Query", .object)])
    = .ok ((),
        { schema := [
              .objectD ⟨"User", [⟨"id", .nonNull (.namedType "String"), []⟩]⟩,
              .objectD ⟨"Query", [⟨"findUser", .namedType "User",
                [⟨"id", .nonNull (.namedType "String")⟩]⟩]⟩],
          manifest := [("User", .object), ("Query", .object)],
          parsing_inputs := false, parsing_output := false }) ∧
    parse_items 30 [
      .stmt (.declTypeAlias "User" (.typeLit [.propSig (.ident "id") false
        (some (.keyword .stringKw))])),
      .stmt (.declTypeAlias "Query" (.typeLit [
        .propSig (.ident "findUser") false (some (.fnType
          [.identP (some (.typeLit [.propSig (.ident "id") false (some (.keyword .stringKw))]))]
          (.typeRef (.ident "Promise") (some [.typeRef (.ident "User") none]))))]))]
      (CodeGenCtx.new [("User", .object), ("Query", .object)])
    = .ok ((),
        { schema := [
              .objectD ⟨"User", [⟨"id", .nonNull (.namedType "String"), []⟩]⟩,
              .objectD ⟨"Query", [⟨"findUser", .nonNull (.namedType "User"),
                [⟨"id", .nonNull (.namedType "String")⟩]⟩]⟩],
          manifest := [("User", .object), ("Query", .object)],
          parsing_inputs := false, parsing_output := false }) := by
  refine ⟨?_, ?_, ?_, ?_, rfl, rfl⟩
  · intro fuel f ms ret opt ctx ivs ctx2 harg
    simp [parse_type, harg]
  · intro fuel f us M ctx hnul hunw hM
    cases hres : parse_type fuel f M true ctx with
    | error e =>
      cases M <;> first
        | exact absurd rfl (hM _)
        | simp [parse_type, parse_type_ref, hnul, hunw, hres, nonNullWrap]
    | ok v =>
      obtain ⟨⟨ty, args⟩, ctx1⟩ := v
      cases M <;> first
        | exact absurd rfl (hM _)
        | simp [parse_type, parse_type_ref, hnul, hunw, hres, nonNullWrap]
  · intro fuel f ms2 ctx
    cases htl : parse_type_literal fuel .objectK (compute_new_name .outputName f)
        (.typeLit ms2) ctx with
    | error e => simp [parse_type, parse_type_ref, htl]
    | ok v =>
      obtain ⟨u, ctx1⟩ := v
      simp [parse_type, parse_type_ref, htl, nonNullWrap]
  · intro fuel f T ctx hnul hT
    cases hres : parse_type fuel "" T false ctx with
    | error e =>
      cases T <;> first
        | exact absurd rfl (hT _)
        | simp [parse_type, parse_type_ref, hnul, hres, nonNullWrap]
    | ok v =>
      obtain ⟨⟨ty, args⟩, ctx1⟩ := v
      cases T <;> first
        | exact absurd rfl (hT _)
        | simp [parse_type, parse_type_ref, hnul, hres, nonNullWrap]


/-- Witness for C6's amended theorem at concrete function and Promise types. -/
theorem c6_promise_return_resolution_witness :
    parse_type 11 "findUser" (.fnType
        [.identP (some (.typeLit [.propSig (.ident "id") false (some (.keyword .stringKw))]))]
        (.keyword .booleanKw)) false (CodeGenCtx.new [])
      = (match parse_type 10 "findUser" (.keyword .booleanKw) true
            (⟨[], [], false, true⟩ : CodeGenCtx) with
         | .error e => .error e
         | .ok ((rty, _), ctx4) =>
           .ok ((rty, some [⟨"id", .nonNull (.namedType "String")⟩]),
             { ctx4 with parsing_output := false })) ∧
    parse_type 12 "findUser" (.typeRef (.ident "Promise")
        (some [.unionType [.typeRef (.ident "User") none, .keyword .nullKw]])) true
        (CodeGenCtx.new [("User", .object)])
      = parse_type 10 "findUser" (.typeRef (.ident "User") none) true
          (CodeGenCtx.new [("User", .object)]) ∧
    parse_type 12 "findUser" (.typeRef (.ident "Promise") (some [.typeLit []])) true
        (CodeGenCtx.new [])
      = (match parse_type_literal 10 .objectK (compute_new_name .outputName "findUser")
            (.typeLit []) (CodeGenCtx.new []) with
         | .error e => .error e
         | .ok (_, ctx1) =>
           .ok ((.nonNull (.namedType (compute_new_name .outputName "findUser")), none), ctx1)) ∧
    parse_type 12 "findUser" (.typeRef (.ident "Promise") (some [.keyword .stringKw])) true
        (CodeGenCtx.new [])
      = parse_type 10 "" (.keyword .stringKw) false (CodeGenCtx.new []) :=
  ⟨c6_promise_return_resolution.1 10 "findUser"
      [.propSig (.ident "id") false (some (.keyword .stringKw))] (.keyword .booleanKw) false
      (CodeGenCtx.new []) [⟨"id", .nonNull (.namedType "String")⟩] ⟨[], [], true, false⟩ rfl,
   c6_promise_return_resolution.2.1 10 "findUser"
      [.typeRef (.ident "User") none, .keyword .nullKw] (.typeRef (.ident "User") none)
      (CodeGenCtx.new [("User", .object)]) rfl rfl (fun ms2 h => by cases h),
   c6_promise_return_resolution.2.2.1 10 "findUser" [] (CodeGenCtx.new []),
   c6_promise_return_resolution.2.2.2.1 10 "findUser" (.keyword .stringKw)
      (CodeGenCtx.new []) rfl (fun ms2 h => by cases h)⟩

end Tsgql

namespace Tsgql

mutual

/-- Safety of resolving a type expression with the given `optional` flag:
rules out exactly the positions where the Promise branch's own `NonNull`
result would be re-wrapped by the `nonNullWrap` finalization — a Promise
reference resolved with `optional := false` (a required non-return
position, or a Promise directly nested in a Promise). -/
inductive SafeOpt : Bool → TsType → Prop where
  | kw (opt : Bool) (k : TsKeywordKind) : SafeOpt opt (.keyword k)
  | arr (opt : Bool) (e : TsType) : SafeOpt true e → SafeOpt opt (.array e)
  | refNonPromise (opt : Bool) (n : String) (ps : Option (List TsType)) :
      n ≠ "Promise" → SafeOpt opt (.typeRef (.ident n) ps)
  | refQualified (opt : Bool) (ps : Option (List TsType)) :
      SafeOpt opt (.typeRef .qualified ps)
  | promiseNone (opt : Bool) : SafeOpt opt (.typeRef (.ident "Promise") none)
  | promiseMulti (opt : Bool) (ps : List TsType) : ps.length ≠ 1 →
      SafeOpt opt (.typeRef (.ident "Promise") (some ps))
  | promiseOne (X : TsType) : SafeOpt false X →
      SafeOpt true (.typeRef (.ident "Promise") (some [X]))
  | fnLit (opt : Bool) (ms : List TsTypeElement) (ret : TsType) :
      MembersSafe ms → SafeOpt true ret →
      SafeOpt opt (.fnType [.identP (some (.typeLit ms))] ret)
  | fnBad (opt : Bool) (params : List TsFnParam) (ret : TsType) :
      (∀ ms, params ≠ [.identP (some (.typeLit ms))]) →
      SafeOpt opt (.fnType params ret)
  | uni (opt : Bool) (ts : List TsType) :
      (∀ M, unwrap_union ts = .ok M → SafeOpt true M) → SafeOpt opt (.unionType ts)
  | inter (opt : Bool) (ts : List TsType) : SafeOpt opt (.intersectionType ts)
  | oth (opt : Bool) : SafeOpt opt .otherType
  | lit (opt : Bool) (ms : List TsTypeElement) : MembersSafe ms → SafeOpt opt (.typeLit ms)

/-- Safety of a member list: each property's annotated type is safe for the
property's own optional flag. -/
inductive MembersSafe : List TsTypeElement → Prop where
  | nil : MembersSafe []
  | consProp (k : PropKey) (opt : Bool) (ty : TsType) (rest : List TsTypeElement) :
      SafeOpt opt ty → MembersSafe rest → MembersSafe (.propSig k opt (some ty) :: rest)
  | consNone (k : PropKey) (opt : Bool) (rest : List TsTypeElement) :
      MembersSafe rest → MembersSafe (.propSig k opt none :: rest)
  | consOther (rest : List TsTypeElement) :
      MembersSafe rest → MembersSafe (.otherElement :: rest)

end

/-- Safety of a top-level statement. -/
def StmtSafe : Stmt → Prop
  | .declTypeAlias _ ty => ∀ ms, ty = .typeLit ms → MembersSafe ms
  | .otherStmt => True

/-- Safety of one module item. -/
def ItemSafe : ModuleItem → Prop
  | .stmt s => StmtSafe s
  | .moduleDecl => True

/-- Safety of a whole module body. -/
def ItemsSafe (items : List ModuleItem) : Prop := ∀ i ∈ items, ItemSafe i

theorem typeOk_nonNullWrap (opt : Bool) (ty : Type_) (h1 : isNonNull ty = false)
    (h2 : typeOk ty = true) : typeOk (nonNullWrap opt ty) = true := by
  cases opt <;> simp [nonNullWrap, typeOk, h1, h2]

theorem schemaOk_append (s : List SchemaDef) (d : SchemaDef)
    (hs : schemaOk s = true) (hd : defOk d = true) : schemaOk (s ++ [d]) = true := by
  simp only [schemaOk, List.all_append, List.all_cons, List.all_nil, Bool.and_true] at hs ⊢
  simp [hs, hd]

theorem collectInputs_ok : ∀ (fields : List ParsedField) (fs : List InputField),
    collectInputs fields = some fs → fields.all parsedFieldOk = true →
    fs.all inputFieldOk = true := by
  intro fields
  induction fields with
  | nil =>
    intro fs h hok
    simp only [collectInputs, Option.some.injEq] at h
    simp [← h]
  | cons f rest ih =>
    intro fs h hok
    cases f with
    | inputF g =>
      simp only [collectInputs] at h
      cases hrec : collectInputs rest with
      | none => rw [hrec] at h; cases h
      | some gs =>
        rw [hrec] at h
        simp only [Option.some.injEq] at h
        simp only [List.all_cons, Bool.and_eq_true, parsedFieldOk] at hok
        simp [← h, List.all_cons, hok.1, ih gs hrec hok.2]
    | objectF g => simp [collectInputs] at h

theorem collectObjects_ok : ∀ (fields : List ParsedField) (fs : List Field),
    collectObjects fields = some fs → fields.all parsedFieldOk = true →
    fs.all fieldOk = true := by
  intro fields
  induction fields with
  | nil =>
    intro fs h hok
    simp only [collectObjects, Option.some.injEq] at h
    simp [← h]
  | cons f rest ih =>
    intro fs h hok
    cases f with
    | objectF g =>
      simp only [collectObjects] at h
      cases hrec : collectObjects rest with
      | none => rw [hrec] at h; cases h
      | some gs =>
        rw [hrec] at h
        simp only [Option.some.injEq] at h
        simp only [List.all_cons, Bool.and_eq_true, parsedFieldOk] at hok
        simp [← h, List.all_cons, hok.1, ih gs hrec hok.2]
    | inputF g => simp [collectObjects] at h


/-- The shape invariant, proved across all generator functions by induction
on the recursion fuel: under the `SafeOpt`-family safety hypotheses, every
produced field type, input-field type and argument type satisfies `typeOk`
(no `NonNull` directly wrapping `NonNull`), and every definition pushed into
the schema accumulator does too. -/
theorem invariant_all : ∀ n : Nat,
    (∀ items ctx r ctx1, ItemsSafe items → CtxOk ctx →
      parse_items n items ctx = .ok (r, ctx1) → CtxOk ctx1) ∧
    (∀ s ctx r ctx1, StmtSafe s → CtxOk ctx →
      parse_statement n s ctx = .ok (r, ctx1) → CtxOk ctx1) ∧
    (∀ k t ctx fields ctx1, (∀ ms, t = .typeLit ms → MembersSafe ms) → CtxOk ctx →
      parse_typed_fields n k t ctx = .ok (fields, ctx1) →
      fields.all parsedFieldOk = true ∧ CtxOk ctx1) ∧
    (∀ k ms ctx fields ctx1, MembersSafe ms → CtxOk ctx →
      parse_typed_fields_loop n k ms ctx = .ok (fields, ctx1) →
      fields.all parsedFieldOk = true ∧ CtxOk ctx1) ∧
    (∀ k key opt ann ctx fld ctx1, (∀ ty, ann = some ty → SafeOpt opt ty) → CtxOk ctx →
      parse_field n k key opt ann ctx = .ok (fld, ctx1) →
      parsedFieldOk fld = true ∧ CtxOk ctx1) ∧
    (∀ f t opt ctx ty args ctx1, SafeOpt opt t → CtxOk ctx →
      parse_type n f t opt ctx = .ok ((ty, args), ctx1) →
      typeOk ty = true ∧ argsOk args = true ∧ CtxOk ctx1) ∧
    (∀ f tn ps ctx ty args ctx1,
      (∀ X, tn = .ident "Promise" → ps = some [X] → SafeOpt false X) → CtxOk ctx →
      parse_type_ref n f tn ps ctx = .ok ((ty, args), ctx1) →
      typeOk ty = true ∧ argsOk args = true ∧ CtxOk ctx1) ∧
    (∀ f ms cnt ctx ivs ctx1, MembersSafe ms → CtxOk ctx →
      parse_arg_members n f ms cnt ctx = .ok (ivs, ctx1) →
      ivs.all inputValueOk = true ∧ CtxOk ctx1) ∧
    (∀ f m cnt ctx iv ctx1, (∀ k o ty, m = .propSig k o (some ty) → SafeOpt o ty) → CtxOk ctx →
      parse_arg_member n f m cnt ctx = .ok (iv, ctx1) →
      inputValueOk iv = true ∧ CtxOk ctx1) ∧
    (∀ nm t opt ctx ty ctx1, (∀ ms, t = .typeLit ms → MembersSafe ms) → CtxOk ctx →
      parse_arg_type_literal n nm t opt ctx = .ok (ty, ctx1) →
      typeOk ty = true ∧ CtxOk ctx1) ∧
    (∀ k nm t ctx u ctx1, (∀ ms, t = .typeLit ms → MembersSafe ms) → CtxOk ctx →
      parse_type_literal n k nm t ctx = .ok (u, ctx1) → CtxOk ctx1) := by
  intro n
  induction n with
  | zero =>
    refine ⟨?_, ?_, ?_, ?_, ?_, ?_, ?_, ?_, ?_, ?_, ?_⟩
    · intro a b c d hs hc h; simp [parse_items] at h
    · intro a b c d hs hc h; simp [parse_statement] at h
    · intro a b c d e hs hc h; simp [parse_typed_fields] at h
    · intro a b c d e hs hc h; simp [parse_typed_fields_loop] at h
    · intro a b c d e f g hs hc h; simp [parse_field] at h
    · intro a b c d e f g hs hc h; simp [parse_type] at h
    · intro a b c d e f g hs hc h; simp [parse_type_ref] at h
    · intro a b c d e f hs hc h; simp [parse_arg_members] at h
    · intro a b c d e f hs hc h; simp [parse_arg_member] at h
    · intro a b c d e f hs hc h; simp [parse_arg_type_literal] at h
    · intro a b c d e f hs hc h; simp [parse_type_literal] at h
  | succ n ih =>
    obtain ⟨ihItems, ihStmt, ihTF, ihTFL, ihField, ihType, ihRef, ihArgs, ihArg, ihATL, ihTL⟩ := ih
    refine ⟨?_, ?_, ?_, ?_, ?_, ?_, ?_, ?_, ?_, ?_, ?_⟩
    · -- parse_items
      intro items ctx r ctx1 hs hc h
      simp only [parse_items] at h
      split at h
      · cases h; exact hc
      · rename_i rest
        exact ihItems _ _ _ _ (fun i hi => hs i (List.mem_cons_of_mem _ hi)) hc h
      · rename_i s rest
        split at h
        · cases h
        · rename_i heq
          exact ihItems _ _ _ _ (fun i hi => hs i (List.mem_cons_of_mem _ hi))
            (ihStmt _ _ _ _ (hs (.stmt s) (List.mem_cons_self _ _)) hc heq) h
    · -- parse_statement
      intro s ctx r ctx1 hs hc h
      simp only [parse_statement] at h
      split at h
      · cases h
      · rename_i id ty
        split at h
        · split at h
          · cases h
          · rename_i heq
            split at h
            · cases h
            · rename_i fs hcoll
              cases h
              obtain ⟨hfok, hctx⟩ := ihTF _ _ _ _ _ hs hc heq
              exact schemaOk_append _ _ hctx
                (by simpa [defOk] using collectInputs_ok _ _ hcoll hfok)
        · split at h
          · cases h
          · rename_i heq
            split at h
            · cases h
            · rename_i fs hcoll
              cases h
              obtain ⟨hfok, hctx⟩ := ihTF _ _ _ _ _ hs hc heq
              exact schemaOk_append _ _ hctx
                (by simpa [defOk] using collectObjects_ok _ _ hcoll hfok)
        · cases h; exact hc
    · -- parse_typed_fields
      intro k t ctx fields ctx1 hs hc h
      simp only [parse_typed_fields] at h
      split at h
      · rename_i lit
        exact ihTFL _ _ _ _ _ (hs lit rfl) hc h
      · cases h
    · -- parse_typed_fields_loop
      intro k ms ctx fields ctx1 hs hc h
      simp only [parse_typed_fields_loop] at h
      split at h
      · cases h; exact ⟨rfl, hc⟩
      · rename_i key opt ann rest
        split at h
        · cases h
        · rename_i heq
          split at h
          · cases h
          · rename_i heq2
            cases h
            have hmem : (∀ ty, ann = some ty → SafeOpt opt ty) ∧ MembersSafe rest := by
              cases hs with
              | consProp k o ty rest hso hrest =>
                exact ⟨fun ty2 h2 => by cases h2; exact hso, hrest⟩
              | consNone k o rest hrest =>
                exact ⟨(fun ty2 h2 => by cases h2), hrest⟩
            obtain ⟨hfld, hc2⟩ := ihField _ _ _ _ _ _ _ hmem.1 hc heq
            obtain ⟨hflds, hc3⟩ := ihTFL _ _ _ _ _ hmem.2 hc2 heq2
            exact ⟨by simp [List.all_cons, hfld, hflds], hc3⟩
      · cases h
    · -- parse_field
      intro k key opt ann ctx fld ctx1 hs hc h
      simp only [parse_field] at h
      split at h
      · cases h
      · rename_i key_sym
        split at h
        · cases h
        · rename_i ann2
          split at h
          · cases h
          · rename_i ty2 heq
            cases h
            obtain ⟨hty, hargs, hc2⟩ := ihType _ _ _ _ _ _ _ (hs ann2 rfl) hc heq
            refine ⟨?_, hc2⟩
            cases k <;>
              simp [ParsedField.new, parsedFieldOk, inputFieldOk, fieldOk, hty]
          · rename_i ty2 args2 heq
            split at h
            · cases h
            · rename_i fld2 hwa
              cases h
              obtain ⟨hty, hargs, hc2⟩ := ihType _ _ _ _ _ _ _ (hs _ rfl) hc heq
              refine ⟨?_, hc2⟩
              cases k with
              | inputK => simp [ParsedField.with_args, ParsedField.new] at hwa
              | objectK =>
                simp only [ParsedField.with_args, ParsedField.new, Option.some.injEq] at hwa
                simp only [argsOk] at hargs
                simp [← hwa, parsedFieldOk, fieldOk, hty, hargs]
    · -- parse_type
      intro f t opt ctx ty args ctx1 hs hc h
      cases hs with
      | kw opt k =>
        simp only [parse_type] at h
        split at h
        · cases h
        · rename_i ty0 heq
          cases h
          obtain ⟨h1, h2⟩ := parse_keyword_type_shape k ty0 heq
          exact ⟨typeOk_nonNullWrap _ _ h1 h2, rfl, hc⟩
      | arr opt e hse =>
        simp only [parse_type] at h
        split at h
        · split at h
          · cases h
          · rename_i heq
            cases h
            cases hse with
            | lit o ms hms =>
              exact ⟨typeOk_nonNullWrap _ _ rfl rfl, rfl,
                ihTL _ _ _ _ _ _ (fun ms2 h2 => by cases h2; exact hms) hc heq⟩
        · split at h
          · cases h
          · rename_i heq
            cases h
            obtain ⟨hty, -, hc2⟩ := ihType _ _ _ _ _ _ _ hse hc heq
            exact ⟨typeOk_nonNullWrap _ _ rfl (by simpa [typeOk] using hty), rfl, hc2⟩
      | refNonPromise opt nm ps hn =>
        simp only [parse_type] at h
        split at h
        · cases h
        · rename_i heq
          cases h
          obtain ⟨hty, hargs, hctx⟩ := parse_type_ref_nonpromise_shape n f nm ps ctx _ _ _ hn heq
          subst hty; subst hargs; subst hctx
          exact ⟨typeOk_nonNullWrap _ _ rfl rfl, rfl, hc⟩
      | refQualified opt ps =>
        simp only [parse_type] at h
        split at h
        · cases h
        · rename_i heq
          cases n with
          | zero => simp [parse_type_ref] at heq
          | succ m => simp [parse_type_ref] at heq
      | promiseNone opt =>
        simp only [parse_type] at h
        split at h
        · cases h
        · rename_i heq
          cases n with
          | zero => simp [parse_type_ref] at heq
          | succ m => simp [parse_type_ref] at heq
      | promiseMulti opt ps hlen =>
        simp only [parse_type] at h
        split at h
        · cases h
        · rename_i heq
          cases n with
          | zero => simp [parse_type_ref] at heq
          | succ m =>
            simp only [parse_type_ref] at heq
            rw [if_neg (by simp)] at heq
            cases ps with
            | nil => simp at heq
            | cons p rest =>
              cases rest with
              | nil => exact absurd rfl hlen
              | cons q rest2 => simp at heq
      | promiseOne X hX =>
        simp only [parse_type] at h
        split at h
        · cases h
        · rename_i heq
          cases h
          obtain ⟨hty, hargs, hc2⟩ := ihRef _ _ _ _ _ _ _
            (fun X2 hpn hps => by cases hps; exact hX) hc heq
          exact ⟨by simpa [nonNullWrap] using hty, hargs, hc2⟩
      | fnLit opt ms ret hms hret =>
        simp only [parse_type] at h
        split at h
        · cases h
        · split at h
          · cases h
          · rename_i args0 ctx2 heq
            split at h
            · cases h
            · rename_i rty0 snd0 ctx4 heq2
              cases h
              obtain ⟨hivs, hc2⟩ :=
                ihArgs _ _ _ { ctx with parsing_inputs := true } _ _ hms hc heq
              have hc2b : CtxOk { ctx2 with parsing_inputs := false, parsing_output := true } :=
                hc2
              obtain ⟨hrty, -, hc3⟩ := ihType _ _ _ _ _ _ _ hret hc2b heq2
              exact ⟨hrty, by simpa [argsOk] using hivs, hc3⟩
      | fnBad opt params ret hbad =>
        simp only [parse_type] at h
        split at h
        · cases h
        · rename_i hlen
          cases params with
          | nil => simp at hlen
          | cons p rest =>
            cases rest with
            | cons q rest2 => simp at hlen
            | nil =>
              cases p with
              | otherParam => cases h
              | identP ann =>
                cases ann with
                | none => cases h
                | some pt =>
                  cases pt with
                  | typeLit lit => exact absurd rfl (hbad lit)
                  | keyword k => cases h
                  | array e => cases h
                  | typeRef a b => cases h
                  | fnType a b => cases h
                  | unionType a => cases h
                  | intersectionType a => cases h
                  | otherType => cases h
      | uni opt ts hmem =>
        simp only [parse_type] at h
        split at h
        · cases h
        · rename_i typ heq
          exact ihType _ _ _ _ _ _ _ (hmem typ heq) hc h
      | inter opt ts => simp [parse_type] at h
      | oth opt => simp [parse_type] at h
      | lit opt ms hms => simp [parse_type] at h
    · -- parse_type_ref
      intro f tn ps ctx ty args ctx1 hs hc h
      cases tn with
      | qualified => simp [parse_type_ref] at h
      | ident sym =>
        by_cases hsym : sym = "Promise"
        · subst hsym
          simp only [parse_type_ref] at h
          rw [if_neg (by simp)] at h
          cases ps with
          | none => cases h
          | some params =>
            cases params with
            | nil => cases h
            | cons p rest =>
              cases rest with
              | cons q rest2 => cases h
              | nil =>
                dsimp only at h
                have hX : SafeOpt false p := hs p rfl rfl
                cases p with
                | unionType us =>
                  cases hnu : is_nullable_union (.unionType us) with
                  | false =>
                    rw [hnu] at h
                    dsimp only at h
                    exact ihType _ _ _ _ _ _ _ hX hc h
                  | true =>
                    rw [hnu] at h
                    dsimp only at h
                    split at h
                    · cases h
                    · rename_i non_null hunw
                      have hnn : SafeOpt true non_null := by
                        cases hX with
                        | uni o ts hmem => exact hmem non_null hunw
                      split at h
                      · split at h
                        · cases h
                        · rename_i heq
                          cases h
                          cases hnn with
                          | lit o2 ms2 hms2 =>
                            exact ⟨rfl, rfl,
                              ihTL _ _ _ _ _ _ (fun a b => by cases b; exact hms2) hc heq⟩
                      · exact ihType _ _ _ _ _ _ _ hnn hc h
                | typeLit ms2 =>
                  dsimp only at h
                  have hms2 : MembersSafe ms2 := by
                    cases hX with
                    | lit o3 ms3 hms3 => exact hms3
                  split at h
                  · cases h
                  · rename_i heq
                    cases h
                    exact ⟨rfl, rfl,
                      ihTL _ _ _ _ _ _ (fun a b => by cases b; exact hms2) hc heq⟩
                | keyword k => dsimp only at h; exact ihType _ _ _ _ _ _ _ hX hc h
                | array e => dsimp only at h; exact ihType _ _ _ _ _ _ _ hX hc h
                | typeRef tn2 ps2 => dsimp only at h; exact ihType _ _ _ _ _ _ _ hX hc h
                | fnType prms ret2 => dsimp only at h; exact ihType _ _ _ _ _ _ _ hX hc h
                | intersectionType ts2 => dsimp only at h; exact ihType _ _ _ _ _ _ _ hX hc h
                | otherType => dsimp only at h; exact ihType _ _ _ _ _ _ _ hX hc h
        · obtain ⟨h1, h2, h3⟩ :=
            parse_type_ref_nonpromise_shape (n + 1) f sym ps ctx ty args ctx1 hsym h
          subst h1; subst h2; subst h3
          exact ⟨rfl, rfl, hc⟩
    · -- parse_arg_members
      intro f ms cnt ctx ivs ctx1 hs hc h
      simp only [parse_arg_members] at h
      split at h
      · cases h; exact ⟨rfl, hc⟩
      · rename_i m rest
        split at h
        · cases h
        · rename_i heq
          split at h
          · cases h
          · rename_i heq2
            cases h
            have hmem : (∀ k o ty, m = .propSig k o (some ty) → SafeOpt o ty) ∧
                MembersSafe rest := by
              cases hs with
              | consProp k o ty rest hso hrest =>
                exact ⟨fun k2 o2 ty2 h2 => by cases h2; exact hso, hrest⟩
              | consNone k o rest hrest =>
                exact ⟨(fun k2 o2 ty2 h2 => by cases h2), hrest⟩
              | consOther rest hrest =>
                exact ⟨(fun k2 o2 ty2 h2 => by cases h2), hrest⟩
            obtain ⟨hiv, hc2⟩ := ihArg _ _ _ _ _ _ hmem.1 hc heq
            obtain ⟨hivs, hc3⟩ := ihArgs _ _ _ _ _ _ hmem.2 hc2 heq2
            exact ⟨by simp [List.all_cons, hiv, hivs], hc3⟩
    · -- parse_arg_member
      intro f m cnt ctx iv ctx1 hs hc h
      simp only [parse_arg_member] at h
      split at h
      · cases h
      · rename_i key optional type_ann
        split at h
        · cases h
        · rename_i name
          split at h
          · cases h
          · rename_i ann
            split at h
            · -- typeLit
              rename_i lit
              split at h
              · cases h
              · rename_i heq
                cases h
                have hso : SafeOpt optional (.typeLit lit) := hs _ _ _ rfl
                cases hso with
                | lit o2 ms2 hms2 =>
                  obtain ⟨hty, hc2⟩ :=
                    ihATL _ _ _ _ _ _ (fun a b => by cases b; exact hms2) hc heq
                  exact ⟨by simpa [inputValueOk] using hty, hc2⟩
            · -- union
              rename_i uni2
              split at h
              · cases h
              · split at h
                · cases h
                · rename_i unwrapped hunw
                  have hso : SafeOpt optional (.unionType uni2) := hs _ _ _ rfl
                  have hnn : SafeOpt true unwrapped := by
                    cases hso with
                    | uni o ts hmem => exact hmem unwrapped hunw
                  split at h
                  · split at h
                    · cases h
                    · rename_i heq
                      cases h
                      cases hnn with
                      | lit o2 ms2 hms2 =>
                        obtain ⟨hty, hc2⟩ :=
                          ihATL _ _ _ _ _ _ (fun a b => by cases b; exact hms2) hc heq
                        exact ⟨by simpa [inputValueOk] using hty, hc2⟩
                  · split at h
                    · cases h
                    · rename_i heq
                      cases h
                      obtain ⟨hty, -, hc2⟩ := ihType _ _ _ _ _ _ _ hnn hc heq
                      exact ⟨by simpa [inputValueOk] using hty, hc2⟩
            · -- other
              split at h
              · cases h
              · rename_i heq
                cases h
                obtain ⟨hty, -, hc2⟩ := ihType _ _ _ _ _ _ _ (hs _ _ _ rfl) hc heq
                exact ⟨by simpa [inputValueOk] using hty, hc2⟩
    · -- parse_arg_type_literal
      intro nm t opt ctx ty ctx1 hs hc h
      simp only [parse_arg_type_literal] at h
      split at h
      · cases h
      · rename_i heq
        have hc2 := ihTL _ _ _ _ _ _ hs hc heq
        split at h
        · cases h; exact ⟨rfl, hc2⟩
        · cases h; exact ⟨rfl, hc2⟩
    · -- parse_type_literal
      intro k nm t ctx u ctx1 hs hc h
      simp only [parse_type_literal] at h
      split at h
      · split at h
        · cases h
        · rename_i heq
          split at h
          · cases h
          · rename_i fs hcoll
            cases h
            obtain ⟨hfok, hctx⟩ := ihTF _ _ _ _ _ hs hc heq
            exact schemaOk_append _ _ hctx
              (by simpa [defOk] using collectInputs_ok _ _ hcoll hfok)
      · split at h
        · cases h
        · rename_i heq
          split at h
          · cases h
          · rename_i fs hcoll
            cases h
            obtain ⟨hfok, hctx⟩ := ihTF _ _ _ _ _ hs hc heq
            exact schemaOk_append _ _ hctx
              (by simpa [defOk] using collectObjects_ok _ _ hcoll hfok)


/-! ## Claim C1 -/

/-- C1 counterexample: the claim says no double `NonNull` wrapping occurs
even for a required property whose declared type is a Promise outside a
function return position.  For `type T = \x7b x: Promise<string> \x7d` with
`T` manifest-tagged Object, the translation succeeds and hands the
accumulator the field type `NonNull (NonNull String)` — the `typeRef` arm
of `parse_type` does not return early, so the finalization re-wraps the
Promise branch's own `NonNull` result. -/
theorem c1_counterexample :
    parse_items 20 [.stmt (.declTypeAlias "T" (.typeLit [
        .propSig (.ident "x") false
          (some (.typeRef (.ident "Promise") (some [.keyword .stringKw])))]))]
      (CodeGenCtx.new [("T", .object)])
    = .ok ((), { schema := [.objectD ⟨"T",
                   [⟨"x", .nonNull (.nonNull (.namedType "String")), []⟩]⟩],
                 manifest := [("T", .object)],
                 parsing_inputs := false, parsing_output := false }) ∧
    typeOk (.nonNull (.nonNull (.namedType "String"))) = false ∧
    schemaOk [SchemaDef.objectD ⟨"T",
        [⟨"x", .nonNull (.nonNull (.namedType "String")), []⟩]⟩] = false :=
  ⟨rfl, rfl, rfl⟩

/-- C1 amended: `NonNull` never directly wraps another `NonNull` in any type
produced by the resolver or handed to the schema accumulator, for every
translation in which no Promise wrapper is resolved in a required
(`optional = false`) position — the `SafeOpt` family, which permits Promise
in function-return position and rules out a required property typed
`Promise<...>` and a Promise directly nested in a Promise.  For those
excluded positions the finalization wrapping is not skipped (the `typeRef`
arm falls through to `nonNullWrap`), so double wrapping does occur there,
as the counterexample shows. -/
theorem c1_no_double_nonnull :
    (∀ fuel (f : String) (t : TsType) (opt : Bool) (ctx : CodeGenCtx) ty args ctx1,
      SafeOpt opt t → CtxOk ctx →
      parse_type fuel f t opt ctx = .ok ((ty, args), ctx1) →
      typeOk ty = true ∧ argsOk args = true ∧ schemaOk ctx1.schema = true) ∧
    (∀ fuel (items : List ModuleItem) (manifest : List (String × GraphQLKind)) r ctx1,
      ItemsSafe items →
      parse_items fuel items (CodeGenCtx.new manifest) = .ok (r, ctx1) →
      schemaOk ctx1.schema = true) :=
  ⟨fun fuel f t opt ctx ty args ctx1 hs hc h =>
    (invariant_all fuel).2.2.2.2.2.1 f t opt ctx ty args ctx1 hs hc h,
   fun fuel items manifest r ctx1 hs h =>
    (invariant_all fuel).1 items (CodeGenCtx.new manifest) r ctx1 hs rfl h⟩

/-- Witness for C1's amended theorem: a resolver run on a required scalar
property and a whole translation of `type T = \x7b x: string \x7d`. -/
theorem c1_no_double_nonnull_witness :
    (typeOk (.nonNull (.namedType "String")) = true ∧ argsOk none = true ∧
      schemaOk (CodeGenCtx.new []).schema = true) ∧
    schemaOk [SchemaDef.objectD ⟨"T", [⟨"x", .nonNull (.namedType "String"), []⟩]⟩] = true :=
  ⟨c1_no_double_nonnull.1 2 "x" (.keyword .stringKw) false (CodeGenCtx.new [])
      (.nonNull (.namedType "String")) none (CodeGenCtx.new [])
      (SafeOpt.kw false .stringKw) rfl rfl,
   c1_no_double_nonnull.2 10
      [.stmt (.declTypeAlias "T" (.typeLit [.propSig (.ident "x") false
        (some (.keyword .stringKw))]))]
      [("T", .object)] ()
      { schema := [.objectD ⟨"T", [⟨"x", .nonNull (.namedType "String"), []⟩]⟩],
        manifest := [("T", .object)], parsing_inputs := false, parsing_output := false }
      (by
        intro i hi
        simp only [List.mem_singleton] at hi
        subst hi
        intro ms hms
        cases hms
        exact MembersSafe.consProp _ _ _ _ (SafeOpt.kw false .stringKw) MembersSafe.nil)
      rfl⟩

end Tsgql
